import Mathlib

/-!
Shallow embedding of the expression parser and evaluator of
`LegendaryCalc` (`main.py`, class `MathParser` and the formatting done by
`LegendaryCalc.run_math`).

Numbers are modelled by exact rationals (the ideal arithmetic the spec
describes); the transcendental library functions (`math.sin`, ...) and the
two irrational constants `math.pi`, `math.e` are abstract parameters
gathered in a `MathLib` structure, so every theorem quantifies over them.
All recursive functions are structurally recursive (on their input or on an
ample fuel counter) so that concrete runs reduce inside the kernel.
-/

attribute [local semireducible] Rat.add Rat.mul Rat.sub Rat.inv

/-- Equality of evaluation outcomes is decidable (used by concrete
witnesses). -/
instance {ε α : Type} [DecidableEq ε] [DecidableEq α] : DecidableEq (Except ε α) := fun a b =>
  match a, b with
  | .ok x, .ok y =>
    if h : x = y then .isTrue (by rw [h]) else .isFalse (fun hh => h (Except.ok.inj hh))
  | .error x, .error y =>
    if h : x = y then .isTrue (by rw [h]) else .isFalse (fun hh => h (Except.error.inj hh))
  | .ok _, .error _ => .isFalse (fun hh => Except.noConfusion hh)
  | .error _, .ok _ => .isFalse (fun hh => Except.noConfusion hh)

/-- The whitespace characters recognised by Python's `str.strip` and by the
regex class `\s` (ASCII fragment). -/
def isPySpace (c : Char) : Bool :=
  c = ' ' || c = '\t' || c = '\n' || c = '\x0d' || c = '\x0b' || c = '\x0c'

/-- Python `str.strip`: drop whitespace from both ends. -/
def pyStrip (l : List Char) : List Char :=
  ((l.dropWhile isPySpace).reverse.dropWhile isPySpace).reverse

/-- Source line 45: `expression.replace('π', 'pi')`. -/
def repPi : List Char → List Char
  | [] => []
  | c :: cs => (if c = 'π' then ['p', 'i'] else [c]) ++ repPi cs

/-- Source line 45: `.replace('^', '**')`. -/
def repPow : List Char → List Char
  | [] => []
  | c :: cs => (if c = '^' then ['*', '*'] else [c]) ++ repPow cs

/-- Source line 45: `.replace('√', 'sqrt')`. -/
def repSqrt : List Char → List Char
  | [] => []
  | c :: cs => (if c = '√' then ['s', 'q', 'r', 't'] else [c]) ++ repSqrt cs

/-- Source line 46: `re.sub(r'(\d)(pi|e|\()', r'\1*\2', expression)` —
leftmost, non-overlapping scan; a match consumes the digit and the
following `pi`, `e` or `(`.  Fuel decreases every step and the caller
supplies more fuel than the input length, so it never runs out. -/
def subAGo : Nat → List Char → List Char
  | 0, l => l
  | f + 1, l =>
    match l with
    | [] => []
    | c :: cs =>
      if c.isDigit then
        match cs with
        | 'p' :: 'i' :: r => c :: '*' :: 'p' :: 'i' :: subAGo f r
        | 'e' :: r => c :: '*' :: 'e' :: subAGo f r
        | '(' :: r => c :: '*' :: '(' :: subAGo f r
        | _ => c :: subAGo f cs
      else c :: subAGo f cs

/-- The first implicit-multiplication rewrite (source line 46). -/
def subA (l : List Char) : List Char :=
  subAGo (l.length + 1) l

/-- Source line 47: `re.sub(r'(\))(\d|\()', r'\1*\2', expression)`. -/
def subBGo : Nat → List Char → List Char
  | 0, l => l
  | f + 1, l =>
    match l with
    | [] => []
    | c :: cs =>
      if c = ')' then
        match cs with
        | d :: r =>
          if d.isDigit || d = '(' then c :: '*' :: d :: subBGo f r
          else c :: subBGo f cs
        | [] => [c]
      else c :: subBGo f cs

/-- The second implicit-multiplication rewrite (source line 47). -/
def subB (l : List Char) : List Char :=
  subBGo (l.length + 1) l

/-- Does the list start with `pi`, `e` or `(`?  (The adjacency tested by the
first implicit-multiplication pattern.) -/
def startsPiE : List Char → Bool
  | 'p' :: 'i' :: _ => true
  | 'e' :: _ => true
  | '(' :: _ => true
  | _ => false

/-- Reformulation of the first implicit-multiplication rewrite following the
spec's words: insert a `*` between every digit immediately followed by
`pi`, `e` or `(`.  Used only to compare against `subA`. -/
def specInsA : List Char → List Char
  | [] => []
  | c :: cs =>
    if c.isDigit && startsPiE cs then c :: '*' :: specInsA cs
    else c :: specInsA cs

/-- Does the list start with a digit or `(`? -/
def startsDigitParen : List Char → Bool
  | c :: _ => c.isDigit || c = '('
  | [] => false

/-- Reformulation of the second implicit-multiplication rewrite following
the spec's words: insert a `*` between every `)` immediately followed by a
digit or `(`.  Used only to compare against `subB`. -/
def specInsB : List Char → List Char
  | [] => []
  | c :: cs =>
    if c = ')' && startsDigitParen cs then c :: '*' :: specInsB cs
    else c :: specInsB cs

/-- Recognise `sin`, `cos` or `tan` at the head of the list (the `fn` group
of `MathParser._trig_re`). -/
def trigName : List Char → Option (List Char × List Char)
  | 's' :: 'i' :: 'n' :: r => some (['s', 'i', 'n'], r)
  | 'c' :: 'o' :: 's' :: r => some (['c', 'o', 's'], r)
  | 't' :: 'a' :: 'n' :: r => some (['t', 'a', 'n'], r)
  | _ => none

/-- The negative lookbehind `(?<![a-zA-Z_])` of `MathParser._trig_re`. -/
def okBoundary : Option Char → Bool
  | none => true
  | some c => !(c.isAlpha || c = '_')

/-- Source lines 38 and 50: one scan of
`re.sub(_trig_re, r"\g<fn>(radians(", expression)`.  A match consumes the
function name, any whitespace, and the opening parenthesis, and emits
`fn(radians(` in their place; `prev` is the input character just before the
current position (for the lookbehind).  Fuel decreases every step; the
caller supplies more fuel than the input length, so the fuel never runs
out. -/
def trigGo : Nat → Option Char → List Char → List Char
  | 0, _, l => l
  | f + 1, prev, l =>
    match trigName l with
    | some (nm, r) =>
      if okBoundary prev then
        match r.dropWhile isPySpace with
        | '(' :: r2 =>
          nm ++ ('(' :: 'r' :: 'a' :: 'd' :: 'i' :: 'a' :: 'n' :: 's' :: '(' :: trigGo f (some '(') r2)
        | _ =>
          match l with
          | c :: cs => c :: trigGo f (some c) cs
          | [] => []
      else
        match l with
        | c :: cs => c :: trigGo f (some c) cs
        | [] => []
    | none =>
      match l with
      | c :: cs => c :: trigGo f (some c) cs
      | [] => []

/-- The degree-mode rewrite of source line 50. -/
def trigSub (l : List Char) : List Char :=
  trigGo (l.length + 1) none l

/-- Source lines 53-54: auto-balancing of parentheses. -/
def autoBalance (l : List Char) : List Char :=
  let o := l.count '('
  let c := l.count ')'
  if c < o then l ++ List.replicate (o - c) ')' else l

/-- The whole preprocessing pipeline of `MathParser.evaluate`
(source lines 45-54), applied to the already-stripped input. -/
def preprocess (expression : String) (useDegrees : Bool) : String :=
  let l1 := repSqrt (repPow (repPi expression.toList))
  let l2 := subB (subA l1)
  let l3 := if useDegrees then trigSub l2 else l2
  String.mk (autoBalance l3)

/-! ## The Python value and error model -/

/-- The values the evaluator can produce.  `ast.Constant` (source line 61)
returns its payload unchecked, so strings, booleans and `None` flow through
evaluation alongside numbers; Python numbers are modelled by exact
rationals. -/
inductive Value where
  | num (q : ℚ)
  | str (s : String)
  | bool (b : Bool)
  | none
  deriving DecidableEq

/-- The Python exceptions `MathParser.evaluate` can raise, one constructor
per distinct failure: `ValueError("Empty")`, the `SyntaxError` of
`ast.parse`, `NameError(name)` (unknown identifier or unknown function,
source lines 65 and 72), the `KeyError` of an operator-table miss, the
`TypeError` of an unsupported node or of an operand of the wrong type, the
`TypeError` raised when a table function is applied to the wrong number of
arguments, `ZeroDivisionError`, the `ValueError` of a domain fault, and the
`AttributeError` of `node.func.id` on a non-name callee. -/
inductive Err where
  | empty
  | parseError
  | nameError (name : String)
  | typeError
  | keyError
  | arityError
  | zeroDivisionError
  | domainError
  | attributeError
  deriving DecidableEq

/-- The binary operator kinds the parsed tree can carry (`ast.Add` ... plus
`ast.FloorDiv`, which is parseable but absent from the whitelist). -/
inductive BOp where
  | add | sub | mult | div | pow | mod | floorDiv
  deriving DecidableEq

/-- Unary operator kinds (`ast.USub`, `ast.UAdd`, and `ast.Not`, which is
parseable but absent from the whitelist). -/
inductive UOp where
  | usub | uadd | notOp
  deriving DecidableEq

/-- Comparison operator kinds (all rejected by the evaluator). -/
inductive CmpOp where
  | lt | gt | le | ge | eq | ne
  deriving DecidableEq

/-- Boolean-logic kinds (all rejected by the evaluator). -/
inductive BoolK where
  | andOp | orOp
  deriving DecidableEq

/-- The fragment of Python's expression AST reachable from the calculator's
input: exactly the node kinds `MathParser._eval` dispatches on, plus the
kinds it rejects via the final `TypeError` (source line 74). -/
inductive Node where
  | const (v : Value)
  | name (id : String)
  | binOp (op : BOp) (left right : Node)
  | unaryOp (op : UOp) (operand : Node)
  | call (func : Node) (args : List Node)
  | compare (left : Node) (rest : List (CmpOp × Node))
  | boolOp (op : BoolK) (values : List Node)
  | listLit (elts : List Node)
  | tupleLit (elts : List Node)
  | attribute (value : Node) (attr : String)
  | subscript (value : Node) (index : Node)

/-! ## The abstract math library -/

/-- The external collaborators of `MathParser`: the constants `math.pi`
and `math.e` and the ten unary functions installed in
`MathParser.functions` (source lines 32-37).  Their numeric behaviour is
outside the repository, so they are abstract parameters; each function may
fail (e.g. `math.asin` raises on inputs outside its domain). -/
structure MathLib where
  piV : ℚ
  eV : ℚ
  sinF : ℚ → Except Err ℚ
  cosF : ℚ → Except Err ℚ
  tanF : ℚ → Except Err ℚ
  asinF : ℚ → Except Err ℚ
  acosF : ℚ → Except Err ℚ
  atanF : ℚ → Except Err ℚ
  logF : ℚ → Except Err ℚ
  lnF : ℚ → Except Err ℚ
  sqrtF : ℚ → Except Err ℚ
  radiansF : ℚ → Except Err ℚ

/-- A concrete instantiation used to produce closed witnesses; any other
instantiation would do. -/
def mathLib0 : MathLib where
  piV := 0
  eV := 0
  sinF := fun _ => .ok 0
  cosF := fun _ => .ok 0
  tanF := fun _ => .ok 0
  asinF := fun _ => .ok 0
  acosF := fun _ => .ok 0
  atanF := fun _ => .ok 0
  logF := fun _ => .ok 0
  lnF := fun _ => .ok 0
  sqrtF := fun _ => .ok 0
  radiansF := fun _ => .ok 0

/-- `MathParser.constants` (source line 32): `{'pi': math.pi, 'e': math.e}`. -/
def constTable (M : MathLib) (nm : String) : Option ℚ :=
  if nm = "pi" then some M.piV
  else if nm = "e" then some M.eV
  else none

/-- `MathParser.functions` (source lines 33-37). -/
def fnTable (M : MathLib) (nm : String) : Option (ℚ → Except Err ℚ) :=
  if nm = "sin" then some M.sinF
  else if nm = "cos" then some M.cosF
  else if nm = "tan" then some M.tanF
  else if nm = "asin" then some M.asinF
  else if nm = "acos" then some M.acosF
  else if nm = "atan" then some M.atanF
  else if nm = "log" then some M.logF
  else if nm = "ln" then some M.lnF
  else if nm = "sqrt" then some M.sqrtF
  else if nm = "radians" then some M.radiansF
  else none

/-! ## Value-level semantics of the whitelisted operators -/

/-- View a value as a number the way Python's numeric operators do:
booleans are integers (`bool` subclasses `int`), strings and `None` are
not numbers. -/
def asNum : Value → Option ℚ
  | .num q => some q
  | .bool b => some (if b then 1 else 0)
  | _ => Option.none

/-- View a value as an integer (for string repetition). -/
def asInt : Value → Option ℤ
  | .num q => if q.den = 1 then some q.num else Option.none
  | .bool b => some (if b then 1 else 0)
  | _ => Option.none

/-- Exact power on rationals: my own structural exponentiation so that
concrete runs reduce in the kernel. -/
def powQ (q : ℚ) : ℕ → ℚ
  | 0 => 1
  | n + 1 => q * powQ q n

/-- Integer power (`zpow`) built on `powQ`. -/
def zpowQ (q : ℚ) : ℤ → ℚ
  | .ofNat n => powQ q n
  | .negSucc n => (powQ q (n + 1))⁻¹

/-- Floor of a rational. -/
def floorQ (q : ℚ) : ℤ :=
  Int.fdiv q.num q.den

/-- `op.add`: numeric addition, or string concatenation. -/
def vAdd (a b : Value) : Except Err Value :=
  match asNum a, asNum b with
  | some x, some y => .ok (.num (x + y))
  | _, _ =>
    match a, b with
    | .str s, .str t => .ok (.str (s ++ t))
    | _, _ => .error .typeError

/-- `op.sub`: numeric only. -/
def vSub (a b : Value) : Except Err Value :=
  match asNum a, asNum b with
  | some x, some y => .ok (.num (x - y))
  | _, _ => .error .typeError

/-- Repeat a string `n` times (Python `str * int`). -/
def strRep (s : String) : ℕ → String
  | 0 => ""
  | n + 1 => s ++ strRep s n

/-- `op.mul`: numeric product, or string repetition by an integer. -/
def vMul (a b : Value) : Except Err Value :=
  match asNum a, asNum b with
  | some x, some y => .ok (.num (x * y))
  | _, _ =>
    match a, b with
    | .str s, b =>
      match asInt b with
      | some n => .ok (.str (strRep s n.toNat))
      | _ => .error .typeError
    | a, .str s =>
      match asInt a with
      | some n => .ok (.str (strRep s n.toNat))
      | _ => .error .typeError
    | _, _ => .error .typeError

/-- `op.truediv`: Python raises `ZeroDivisionError` on a zero divisor. -/
def vDiv (a b : Value) : Except Err Value :=
  match asNum a, asNum b with
  | some x, some y =>
    if y = 0 then .error .zeroDivisionError else .ok (.num (x / y))
  | _, _ => .error .typeError

/-- `op.mod`: Python `%` semantics, `a - b * floor(a / b)`, raising
`ZeroDivisionError` on a zero divisor. -/
def vMod (a b : Value) : Except Err Value :=
  match asNum a, asNum b with
  | some x, some y =>
    if y = 0 then .error .zeroDivisionError
    else .ok (.num (x - y * ((floorQ (x / y) : ℤ) : ℚ)))
  | _, _ => .error .typeError

/-- `op.pow` on numbers.  Integer exponents are exact; `0 ** n` for
negative `n` raises `ZeroDivisionError` as in Python.  A fractional
exponent generally denotes an irrational (or complex) float, which lies
outside the exact-rational value model, so it is mapped to the domain
fault. -/
def qpow (x y : ℚ) : Except Err ℚ :=
  if y.den = 1 then
    if 0 ≤ y.num then .ok (powQ x y.num.toNat)
    else if x = 0 then .error .zeroDivisionError
    else .ok (zpowQ x y.num)
  else .error .domainError

/-- `op.pow` on values. -/
def vPow (a b : Value) : Except Err Value :=
  match asNum a, asNum b with
  | some x, some y => (qpow x y).map .num
  | _, _ => .error .typeError

/-- `MathParser.operators` (source lines 27-31) for binary operator types:
a `none` result models the `KeyError` of a dictionary miss (e.g.
`ast.FloorDiv` is parseable but not whitelisted). -/
def binFn : BOp → Option (Value → Value → Except Err Value)
  | .add => some vAdd
  | .sub => some vSub
  | .mult => some vMul
  | .div => some vDiv
  | .pow => some vPow
  | .mod => some vMod
  | .floorDiv => Option.none

/-- `op.neg`: numeric negation. -/
def vNeg (a : Value) : Except Err Value :=
  match asNum a with
  | some x => .ok (.num (-x))
  | _ => .error .typeError

/-- `MathParser.operators` for unary operator types: `ast.USub` is
`op.neg`, `ast.UAdd` is the identity `lambda x: x`; `ast.Not` misses the
table. -/
def uFn : UOp → Option (Value → Except Err Value)
  | .usub => some vNeg
  | .uadd => some (fun v => .ok v)
  | .notOp => Option.none

/-! ## The recursive evaluator `MathParser._eval` -/

/-- Apply a table function to evaluated arguments:
`self.functions[fname](*args)` (source line 73).  Every table function is
unary, so Python raises a `TypeError` (modelled as the arity failure) for
any other argument count, and a `TypeError` for a non-numeric argument. -/
def applyFn (f : ℚ → Except Err ℚ) : List Value → Except Err Value
  | [v] =>
    match asNum v with
    | some q => (f q).map .num
    | _ => .error .typeError
  | _ => .error .arityError

/-- `MathParser._eval` (source lines 59-74), fuelled so that the recursion
is structural; `evaluate` supplies fuel larger than the tree depth.  A
`Call` evaluates its arguments left to right with `List.mapM`, after the
`node.func.id` projection (`AttributeError` on a non-name callee) and the
function-table membership test, exactly as in the source. -/
def evalNode (M : MathLib) : Nat → Node → Except Err Value
  | 0, _ => .error .typeError
  | f + 1, n =>
    match n with
    | .const v => .ok v
    | .name id =>
      match constTable M id with
      | some q => .ok (.num q)
      | _ => .error (.nameError id)
    | .binOp op l r =>
      match binFn op with
      | some g => do
        let a ← evalNode M f l
        let b ← evalNode M f r
        g a b
      | _ => .error .keyError
    | .unaryOp op x =>
      match uFn op with
      | some g => do
        let a ← evalNode M f x
        g a
      | _ => .error .keyError
    | .call fn args =>
      match fn with
      | .name fname =>
        match fnTable M fname with
        | some g => do
          let vs ← args.mapM (evalNode M f)
          applyFn g vs
        | _ => .error (.nameError fname)
      | _ => .error .attributeError
    | _ => .error .typeError

/-! ## Tokens and the lexer

`MathParser.evaluate` delegates parsing to `ast.parse(expression,
mode='eval')` (source line 56).  The following lexer and parser model the
fragment of Python's expression grammar reachable from calculator input:
decimal number literals (integer, floating and exponent forms, with
Python's ban on leading zeros in integer literals), identifiers, the
keywords `True`/`False`/`None`/`and`/`or`/`not`, simple quoted strings,
arithmetic and comparison operators, parentheses, brackets, commas and
attribute dots.  Exotic literal forms (hex, underscores in numbers, string
escapes, comments) are outside the modelled fragment. -/

inductive Tok where
  | num (q : ℚ)
  | name (s : String)
  | str (s : String)
  | kwTrue | kwFalse | kwNone | kwAnd | kwOr | kwNot
  | plus | minus | star | dstar | slash | dslash | percent
  | lparen | rparen | lbrack | rbrack | comma | dot
  | cmp (c : CmpOp)
  deriving DecidableEq

/-- Numeric value of a list of decimal digit characters. -/
def digitsVal (l : List Char) : ℕ :=
  l.foldl (fun a c => a * 10 + (c.toNat - 48)) 0

/-- The rational denoted by integer digits `ip`, fraction digits `fp` and
decimal exponent `ex`. -/
def numValue (ip fp : List Char) (ex : ℤ) : ℚ :=
  ((digitsVal ip : ℚ) + (digitsVal fp : ℚ) / powQ 10 fp.length) * zpowQ 10 ex

/-- Identifier characters (ASCII fragment of Python's identifier rules). -/
def isIdentChar (c : Char) : Bool :=
  c.isAlpha || c.isDigit || c = '_'

/-- Lex the exponent part after `e`/`E`: an optional sign and mandatory
digits (Python rejects a dangling exponent marker as an invalid literal). -/
def lexExp (l : List Char) : Except Err (ℤ × List Char) :=
  let core := fun (sgn : ℤ) (r : List Char) =>
    let ds := r.takeWhile Char.isDigit
    if ds.isEmpty then .error .parseError
    else .ok (sgn * (digitsVal ds : ℤ), r.dropWhile Char.isDigit)
  match l with
  | '+' :: r => core 1 r
  | '-' :: r => core (-1) r
  | r => core 1 r

/-- Lex a number starting at the head of `l` (head is a digit, or a dot
followed by a digit).  Mirrors Python's NUMBER token: `d+`, `d+.d*`,
`.d+`, each with an optional exponent, and a plain integer literal must
not have leading zeros. -/
def lexNumber (l : List Char) : Except Err (Tok × List Char) :=
  let ip := l.takeWhile Char.isDigit
  let r1 := l.dropWhile Char.isDigit
  match r1 with
  | '.' :: r =>
    let fp := r.takeWhile Char.isDigit
    let r2 := r.dropWhile Char.isDigit
    match r2 with
    | 'e' :: r3 => do
      let (ex, r4) ← lexExp r3
      .ok (.num (numValue ip fp ex), r4)
    | 'E' :: r3 => do
      let (ex, r4) ← lexExp r3
      .ok (.num (numValue ip fp ex), r4)
    | _ => .ok (.num (numValue ip fp 0), r2)
  | 'e' :: r3 => do
    let (ex, r4) ← lexExp r3
    .ok (.num (numValue ip [] ex), r4)
  | 'E' :: r3 => do
    let (ex, r4) ← lexExp r3
    .ok (.num (numValue ip [] ex), r4)
  | _ =>
    if ip.head? = some '0' && ip.any (fun c => c ≠ '0') then .error .parseError
    else .ok (.num (numValue ip [] 0), r1)

/-- Lex an identifier or keyword. -/
def lexName (l : List Char) : Tok × List Char :=
  let nm := String.mk (l.takeWhile isIdentChar)
  let t :=
    if nm = "True" then Tok.kwTrue
    else if nm = "False" then Tok.kwFalse
    else if nm = "None" then Tok.kwNone
    else if nm = "and" then Tok.kwAnd
    else if nm = "or" then Tok.kwOr
    else if nm = "not" then Tok.kwNot
    else Tok.name nm
  (t, l.dropWhile isIdentChar)

/-- Lex a quoted string (no escape processing; enough for the literals the
claims exercise).  An unterminated string is a syntax fault. -/
def lexStr (q : Char) (l : List Char) : Except Err (Tok × List Char) :=
  let body := l.takeWhile (fun c => c ≠ q)
  match l.dropWhile (fun c => c ≠ q) with
  | _ :: r => .ok (.str (String.mk body), r)
  | [] => .error .parseError

/-- Lex one token at the head of `l` (head is not whitespace). -/
def lexOne : List Char → Except Err (Tok × List Char)
  | [] => .error .parseError
  | c :: cs =>
    if c.isDigit then lexNumber (c :: cs)
    else if c.isAlpha || c = '_' then .ok (lexName (c :: cs))
    else if c = '\'' || c = '"' then lexStr c cs
    else
      match c :: cs with
      | '.' :: d :: _ =>
        if d.isDigit then lexNumber (c :: cs) else .ok (.dot, cs)
      | '*' :: '*' :: r => .ok (.dstar, r)
      | '/' :: '/' :: r => .ok (.dslash, r)
      | '<' :: '=' :: r => .ok (.cmp .le, r)
      | '>' :: '=' :: r => .ok (.cmp .ge, r)
      | '=' :: '=' :: r => .ok (.cmp .eq, r)
      | '!' :: '=' :: r => .ok (.cmp .ne, r)
      | '.' :: r => .ok (.dot, r)
      | '+' :: r => .ok (.plus, r)
      | '-' :: r => .ok (.minus, r)
      | '*' :: r => .ok (.star, r)
      | '/' :: r => .ok (.slash, r)
      | '%' :: r => .ok (.percent, r)
      | ',' :: r => .ok (.comma, r)
      | '(' :: r => .ok (.lparen, r)
      | ')' :: r => .ok (.rparen, r)
      | '[' :: r => .ok (.lbrack, r)
      | ']' :: r => .ok (.rbrack, r)
      | '<' :: r => .ok (.cmp .lt, r)
      | '>' :: r => .ok (.cmp .gt, r)
      | _ => .error .parseError

/-- The token stream of a character list.  Fuel decreases once per token;
each token consumes at least one character, so fuel beyond the input
length never runs out. -/
def tokGo : Nat → List Char → Except Err (List Tok)
  | f, l =>
    let l1 := l.dropWhile isPySpace
    if l1.isEmpty then .ok []
    else
      match f with
      | 0 => .error .parseError
      | f + 1 => do
        let (t, r) ← lexOne l1
        let ts ← tokGo f r
        .ok (t :: ts)

/-- Tokenise a full input. -/
def tokenize (l : List Char) : Except Err (List Tok) :=
  tokGo (l.length + 1) l

/-! ## The parser

Recursive-descent over the token stream, mirroring Python's expression
grammar on the modelled fragment: `or` / `and` / `not` / comparisons /
add-sub / mul-div-mod / unary factors / right-associative power (whose
right operand is again a factor, so a unary sign binds tighter there) /
postfix trailers (calls, attributes, subscripts) / atoms.  Every loop is a
separate fuelled function taking its sub-parser as an argument, so that
all recursion is structural. -/

/-- The type of a sub-parser. -/
abbrev P := List Tok → Except Err (Node × List Tok)

/-- Left-associative binary-operator chain. -/
def pChain (sub : P) (ops : Tok → Option BOp) : Nat → Node → List Tok → Except Err (Node × List Tok)
  | 0, _, _ => .error .parseError
  | f + 1, a, ts =>
    match ts with
    | t :: r =>
      match ops t with
      | some o => do
        let (b, r2) ← sub r
        pChain sub ops f (.binOp o a b) r2
      | _ => .ok (a, ts)
    | [] => .ok (a, ts)

/-- The multiplicative operators. -/
def termOps : Tok → Option BOp
  | .star => some .mult
  | .slash => some .div
  | .percent => some .mod
  | .dslash => some .floorDiv
  | _ => Option.none

/-- The additive operators. -/
def arithOps : Tok → Option BOp
  | .plus => some .add
  | .minus => some .sub
  | _ => Option.none

/-- Python's `factor` and `power` rules: a sign applies to a whole factor,
and `**` takes a factor on its right (right-associative, and binding a
following sign tighter). -/
def pFactor (sub : P) : Nat → List Tok → Except Err (Node × List Tok)
  | 0, _ => .error .parseError
  | f + 1, ts =>
    match ts with
    | .plus :: r => do
      let (a, r2) ← pFactor sub f r
      .ok (.unaryOp .uadd a, r2)
    | .minus :: r => do
      let (a, r2) ← pFactor sub f r
      .ok (.unaryOp .usub a, r2)
    | _ => do
      let (a, r2) ← sub ts
      match r2 with
      | .dstar :: r3 => do
        let (b, r4) ← pFactor sub f r3
        .ok (.binOp .pow a b, r4)
      | _ => .ok (a, r2)

/-- Comma-separated sequence up to a terminator token (already past the
first element, positioned at a comma or the terminator); allows a trailing
comma, as Python does. -/
def pSeqRest (expr : P) (term : Tok) : Nat → List Node → List Tok → Except Err (List Node × List Tok)
  | 0, _, _ => .error .parseError
  | f + 1, acc, ts =>
    match ts with
    | t :: r =>
      if t = term then .ok (acc.reverse, r)
      else
        match t, r with
        | .comma, t2 :: r2 =>
          if t2 = term then .ok (acc.reverse, r2)
          else do
            let (e, r3) ← expr (t2 :: r2)
            pSeqRest expr term f (e :: acc) r3
        | _, _ => .error .parseError
    | [] => .error .parseError

/-- Call argument list, positioned just after the opening parenthesis. -/
def pArgs (expr : P) (f : Nat) (ts : List Tok) : Except Err (List Node × List Tok) :=
  match ts with
  | .rparen :: r => .ok ([], r)
  | _ => do
    let (e, r) ← expr ts
    pSeqRest expr .rparen f [e] r

/-- Postfix trailers: calls, attribute accesses, subscripts. -/
def pTrailers (expr : P) : Nat → Node → List Tok → Except Err (Node × List Tok)
  | 0, _, _ => .error .parseError
  | f + 1, a, ts =>
    match ts with
    | .lparen :: r => do
      let (args, r2) ← pArgs expr f r
      pTrailers expr f (.call a args) r2
    | .dot :: .name s :: r => pTrailers expr f (.attribute a s) r
    | .dot :: _ => .error .parseError
    | .lbrack :: r => do
      let (i, r2) ← expr r
      match r2 with
      | .rbrack :: r3 => pTrailers expr f (.subscript a i) r3
      | _ => .error .parseError
    | _ => .ok (a, ts)

/-- Atoms: literals, names, parenthesised expressions, tuple and list
displays. -/
def pAtom (expr : P) (f : Nat) (ts : List Tok) : Except Err (Node × List Tok) :=
  match ts with
  | .num q :: r => .ok (.const (.num q), r)
  | .str s :: r => .ok (.const (.str s), r)
  | .kwTrue :: r => .ok (.const (.bool true), r)
  | .kwFalse :: r => .ok (.const (.bool false), r)
  | .kwNone :: r => .ok (.const .none, r)
  | .name s :: r => .ok (.name s, r)
  | .lparen :: .rparen :: r => .ok (.tupleLit [], r)
  | .lparen :: r => do
    let (e, r2) ← expr r
    match r2 with
    | .rparen :: r3 => .ok (e, r3)
    | .comma :: _ => do
      let (elts, r3) ← pSeqRest expr .rparen f [e] r2
      .ok (.tupleLit elts, r3)
    | _ => .error .parseError
  | .lbrack :: .rbrack :: r => .ok (.listLit [], r)
  | .lbrack :: r => do
    let (e, r2) ← expr r
    let (elts, r3) ← pSeqRest expr .rbrack f [e] r2
    .ok (.listLit elts, r3)
  | _ => .error .parseError

/-- Comparison chain (`a < b <= c` is one `Compare` node). -/
def pCmpRest (sub : P) : Nat → Node → List (CmpOp × Node) → List Tok → Except Err (Node × List Tok)
  | 0, _, _, _ => .error .parseError
  | f + 1, a, acc, ts =>
    match ts with
    | .cmp c :: r => do
      let (b, r2) ← sub r
      pCmpRest sub f a (acc ++ [(c, b)]) r2
    | _ =>
      match acc with
      | [] => .ok (a, ts)
      | _ => .ok (.compare a acc, ts)

/-- `not` chains. -/
def pNot (sub : P) : Nat → List Tok → Except Err (Node × List Tok)
  | 0, _ => .error .parseError
  | f + 1, ts =>
    match ts with
    | .kwNot :: r => do
      let (a, r2) ← pNot sub f r
      .ok (.unaryOp .notOp a, r2)
    | _ => sub ts

/-- `and` / `or` chains (one `BoolOp` node with the list of operands, as
in Python's AST). -/
def pBoolRest (sub : P) (kw : Tok) (k : BoolK) : Nat → List Node → List Tok → Except Err (Node × List Tok)
  | 0, _, _ => .error .parseError
  | f + 1, acc, ts =>
    match ts with
    | t :: r =>
      if t = kw then do
        let (b, r2) ← sub r
        pBoolRest sub kw k f (acc ++ [b]) r2
      else
        match acc with
        | [a] => .ok (a, ts)
        | _ => .ok (.boolOp k acc, ts)
    | [] =>
      match acc with
      | [a] => .ok (a, ts)
      | _ => .ok (.boolOp k acc, ts)

/-- One full expression, assembled from the levels above.  The fuel bounds
the nesting depth; `pyParse` supplies far more fuel than the token count,
so well-formed inputs never exhaust it. -/
def pExpr : Nat → List Tok → Except Err (Node × List Tok)
  | 0, _ => .error .parseError
  | f + 1, ts =>
    let postfixP : P := fun ts2 => do
      let (a, r) ← pAtom (pExpr f) f ts2
      pTrailers (pExpr f) f a r
    let factorP : P := pFactor postfixP f
    let termP : P := fun ts2 => do
      let (a, r) ← factorP ts2
      pChain factorP termOps f a r
    let arithP : P := fun ts2 => do
      let (a, r) ← termP ts2
      pChain termP arithOps f a r
    let cmpP : P := fun ts2 => do
      let (a, r) ← arithP ts2
      pCmpRest arithP f a [] r
    let notP : P := pNot cmpP f
    let andP : P := fun ts2 => do
      let (a, r) ← notP ts2
      pBoolRest notP .kwAnd .andOp f [a] r
    let orP : P := fun ts2 => do
      let (a, r) ← andP ts2
      pBoolRest andP .kwOr .orOp f [a] r
    orP ts

/-- Bare top-level tuple tail (`1, 2` in eval mode is a tuple). -/
def pBareRest (expr : P) : Nat → List Node → List Tok → Except Err (List Node × List Tok)
  | 0, _, _ => .error .parseError
  | f + 1, acc, ts =>
    match ts with
    | [] => .ok (acc.reverse, [])
    | [.comma] => .ok (acc.reverse, [])
    | .comma :: r => do
      let (e, r2) ← expr r
      pBareRest expr f (e :: acc) r2
    | _ => .error .parseError

/-- `ast.parse(expression, mode='eval').body` on the modelled fragment:
one expression (possibly a bare tuple) followed by the end of the input;
anything else is the `SyntaxError` of the parser. -/
def parseTop (f : Nat) (ts : List Tok) : Except Err Node := do
  let (e, r) ← pExpr f ts
  match r with
  | [] => .ok e
  | .comma :: _ => do
    let (elts, r2) ← pBareRest (pExpr f) f [e] r
    match r2 with
    | [] => .ok (.tupleLit elts)
    | _ => .error .parseError
  | _ => .error .parseError

/-- Tokenise and parse (source line 56). -/
def pyParse (s : String) : Except Err Node := do
  let ts ← tokenize s.toList
  parseTop (16 * (ts.length + 1)) ts

/-- `MathParser.evaluate` (source lines 40-57): strip, reject the empty
input, preprocess, parse, and evaluate the tree.  The evaluator's fuel is
one more than the token count; a parsed tree is strictly deeper only where
at least one more token was consumed, so its depth is at most the token
count and the fuel never runs out. -/
def evaluate (M : MathLib) (useDegrees : Bool) (expression : String) : Except Err Value :=
  let t := pyStrip expression.toList
  if t.isEmpty then .error .empty
  else
    match tokenize (preprocess (String.mk t) useDegrees).toList with
    | .error e => .error e
    | .ok ts =>
      match parseTop (16 * (ts.length + 1)) ts with
      | .ok n => evalNode M (ts.length + 1) n
      | .error e => .error e

/-! ## The caller's formatting convention

`LegendaryCalc.run_math` (source line 204) formats a successful result
with `'{:.8g}'.format(res)`: up to 8 significant digits, trailing zeros
trimmed, fixed notation for decimal exponents in `[-4, 7]` and scientific
notation (two-digit exponent field) otherwise, rounding half to even. -/

/-- Fuelled base-10 logarithm on naturals (structural, kernel-friendly). -/
def log10Go : Nat → Nat → Nat
  | 0, _ => 0
  | f + 1, n => if n < 10 then 0 else log10Go f (n / 10) + 1

/-- Base-10 logarithm (0 for 0). -/
def log10N (n : ℕ) : ℕ :=
  log10Go n n

/-- Decimal digits of a natural number, most significant first. -/
def natDigitsGo : Nat → Nat → List Char → List Char
  | 0, _, acc => acc
  | f + 1, n, acc =>
    if n = 0 then acc
    else natDigitsGo f (n / 10) (Char.ofNat (48 + n % 10) :: acc)

/-- Decimal digits of a natural number, most significant first. -/
def natDigits (n : ℕ) : List Char :=
  if n = 0 then ['0'] else natDigitsGo (n + 1) n []

/-- The decimal exponent of a positive rational: the `e` with
`10 ^ e ≤ q < 10 ^ (e + 1)`. -/
def sigExp (q : ℚ) : ℤ :=
  let e0 : ℤ := (log10N q.num.natAbs : ℤ) - (log10N q.den : ℤ)
  if zpowQ 10 (e0 + 1) ≤ q then e0 + 1
  else if zpowQ 10 e0 ≤ q then e0
  else e0 - 1

/-- Round half to even. -/
def roundHE (x : ℚ) : ℤ :=
  let fl := floorQ x
  let fr := x - (fl : ℚ)
  if fr < 1 / 2 then fl
  else if 1 / 2 < fr then fl + 1
  else if fl % 2 = 0 then fl else fl + 1

/-- Drop trailing zero characters. -/
def trimZeros (l : List Char) : List Char :=
  (l.reverse.dropWhile (fun c => c = '0')).reverse

/-- Fixed-notation rendering of the 8 significant digits `m`
(`10 ^ 7 ≤ m < 10 ^ 8`) at decimal exponent `e` with `-4 ≤ e ≤ 7`. -/
def renderFixed (m : ℕ) (e : ℤ) : List Char :=
  let ds := natDigits m
  if 0 ≤ e then
    let il := e.toNat + 1
    let ip := ds.take il
    let fp := trimZeros (ds.drop il)
    if fp.isEmpty then ip else ip ++ '.' :: fp
  else
    let zs := List.replicate (e.natAbs - 1) '0'
    '0' :: '.' :: (zs ++ trimZeros ds)

/-- Scientific-notation rendering (`d.ddd` mantissa, sign and two-digit
exponent field, as Python prints it). -/
def renderSci (m : ℕ) (e : ℤ) : List Char :=
  let ds := natDigits m
  let mant :=
    match ds with
    | d :: rest =>
      let fp := trimZeros rest
      if fp.isEmpty then [d] else d :: '.' :: fp
    | [] => ['0']
  let ea := e.natAbs
  let eds := natDigits ea
  let eds2 := if ea < 10 then '0' :: eds else eds
  mant ++ 'e' :: (if 0 ≤ e then '+' else '-') :: eds2

/-- `'{:.8g}'` on a positive rational. -/
def format8gPos (q : ℚ) : List Char :=
  let e := sigExp q
  let m := roundHE (q * zpowQ 10 (7 - e))
  let m2 := if m = 10 ^ 8 then ((10 : ℤ) ^ 7) else m
  let e2 := if m = 10 ^ 8 then e + 1 else e
  if 8 ≤ e2 ∨ e2 < -4 then renderSci m2.toNat e2 else renderFixed m2.toNat e2

/-- `'{:.8g}'.format(res)` (source line 204) on the exact value model. -/
def format8g (q : ℚ) : String :=
  if q = 0 then "0"
  else if q < 0 then String.mk ('-' :: format8gPos (-q))
  else String.mk (format8gPos q)

/-! ## Helper lemmas -/

theorem startsPiE_shapes {cs : List Char} (h : startsPiE cs = true) :
    (∃ r, cs = 'p' :: 'i' :: r) ∨ (∃ r, cs = 'e' :: r) ∨ (∃ r, cs = '(' :: r) := by
  unfold startsPiE at h
  split at h
  · exact Or.inl ⟨_, rfl⟩
  · exact Or.inr (Or.inl ⟨_, rfl⟩)
  · exact Or.inr (Or.inr ⟨_, rfl⟩)
  · exact absurd h (by simp)

theorem subAGo_spec : ∀ f l, l.length < f → subAGo f l = specInsA l := by
  intro f l
  induction f, l using subAGo.induct with
  | case1 l => intro h; exact absurd h (Nat.not_lt_zero _)
  | case2 f => intro _; rfl
  | case3 f c hd r ih =>
    intro h
    simp only [List.length_cons] at h
    simp only [subAGo, specInsA, startsPiE, hd, Bool.and_self, if_pos, Bool.true_and, if_true]
    rw [ih (by omega)]
    simp [specInsA, show Char.isDigit 'p' = false from by decide,
      show Char.isDigit 'i' = false from by decide]
  | case4 f c hd r ih =>
    intro h
    simp only [List.length_cons] at h
    simp only [subAGo, specInsA, startsPiE, hd, Bool.true_and, if_true]
    rw [ih (by omega)]
    simp [specInsA, show Char.isDigit 'e' = false from by decide]
  | case5 f c hd r ih =>
    intro h
    simp only [List.length_cons] at h
    simp only [subAGo, specInsA, startsPiE, hd, Bool.true_and, if_true]
    rw [ih (by omega)]
    simp [specInsA, show Char.isDigit '(' = false from by decide]
  | case6 f c cs hd h1 h2 h3 ih =>
    intro h
    simp only [List.length_cons] at h
    have hs : startsPiE cs = false := by
      cases hh : startsPiE cs
      · rfl
      · rcases startsPiE_shapes hh with ⟨r, rfl⟩ | ⟨r, rfl⟩ | ⟨r, rfl⟩
        · exact absurd rfl (fun x => h1 r x)
        · exact absurd rfl (fun x => h2 r x)
        · exact absurd rfl (fun x => h3 r x)
    simp only [subAGo, specInsA, hd, hs, Bool.and_false, if_false, Bool.true_and]
    rw [ih (by omega)]
    simp
  | case7 f c cs hd ih =>
    intro h
    simp only [List.length_cons] at h
    simp only [subAGo, specInsA, hd, Bool.false_and, if_false]
    rw [ih (by omega)]
    simp [hd]

/-- The first implicit-multiplication pass inserts a `*` at exactly the
adjacencies the spec describes. -/
theorem subA_spec (l : List Char) : subA l = specInsA l :=
  subAGo_spec (l.length + 1) l (Nat.lt_succ_self _)

theorem subBGo_spec : ∀ f l, l.length < f → subBGo f l = specInsB l := by
  intro f l
  induction f, l using subBGo.induct with
  | case1 l => intro h; exact absurd h (Nat.not_lt_zero _)
  | case2 f => intro _; rfl
  | case3 f d r hd ih =>
    intro h
    simp only [List.length_cons] at h
    have hne : ¬(d = ')') := by
      intro e
      subst e
      simp [show Char.isDigit ')' = false from by decide] at hd
    simp only [subBGo, specInsB, startsDigitParen, hd, if_true, if_pos, Bool.and_true]
    rw [ih (by omega)]
    simp [specInsB, startsDigitParen, hd, hne]
  | case4 f d r hd ih =>
    intro h
    simp only [List.length_cons] at h
    have hd2 : (d.isDigit || d = '(') = false := by
      cases hh : (d.isDigit || decide (d = '('))
      · rfl
      · exact absurd hh hd
    simp only [subBGo, specInsB, startsDigitParen]
    rw [ih (by simp only [List.length_cons]; omega)]
    simp [specInsB, startsDigitParen, hd2]
  | case5 f =>
    intro h
    simp [subBGo, specInsB, startsDigitParen]
  | case6 f c cs hp ih =>
    intro h
    simp only [List.length_cons] at h
    simp only [subBGo, specInsB]
    rw [ih (by omega)]
    simp [hp]

/-- The second implicit-multiplication pass inserts a `*` at exactly the
adjacencies the spec describes. -/
theorem subB_spec (l : List Char) : subB l = specInsB l :=
  subBGo_spec (l.length + 1) l (Nat.lt_succ_self _)

/-- The tree `ast.parse` produces for the degree-mode-rewritten text
`sin(radians(90)+1)`: the original `+1` has been absorbed into the
argument of `sin`. -/
def sinPlusOneNode : Node :=
  .call (.name "sin")
    [.binOp .add (.call (.name "radians") [.const (.num 90)]) (.const (.num 1))]

theorem evalNode_sinPlusOne (M : MathLib) (f : Nat) :
    evalNode M (f + 4) sinPlusOneNode =
      (M.radiansF 90).bind (fun r => (M.sinF (r + 1)).map Value.num) := by
  cases h : M.radiansF 90 with
  | ok r =>
    cases h2 : M.sinF (r + 1) <;>
      simp [sinPlusOneNode, evalNode, fnTable, applyFn, asNum, List.mapM, List.mapM.loop, h, h2,
        Except.map, Except.bind, bind, pure, Except.pure, constTable, binFn, vAdd]
  | error e =>
    simp [sinPlusOneNode, evalNode, fnTable, applyFn, asNum, List.mapM, List.mapM.loop, h,
      Except.map, Except.bind, bind, pure, Except.pure, constTable, binFn, vAdd]

/-! ## The claims -/

/-- C1: the claim says every input whose parse tree contains a node outside
the allowed set fails, in particular string literals and boolean and `None`
literals are rejected, and evaluate never returns a non-numeric result.
The code violates this: `ast.Constant` values flow through unchecked, so
the string input `'abc'` evaluates to the string `abc`, `None` to `None`
and `True` to `True` — successful non-numeric results — while comparisons,
tuples, lists, boolean logic and attribute accesses do fail as claimed. -/
theorem C1_literals_flow_through :
    evaluate mathLib0 false "'abc'" = .ok (.str "abc") ∧
    evaluate mathLib0 false "None" = .ok Value.none ∧
    evaluate mathLib0 false "True" = .ok (.bool true) ∧
    evaluate mathLib0 false "1<2" = .error .typeError ∧
    evaluate mathLib0 false "(1,2)" = .error .typeError ∧
    evaluate mathLib0 false "[1,2]" = .error .typeError ∧
    evaluate mathLib0 false "1 and 2" = .error .typeError ∧
    evaluate mathLib0 false "math.pi" = .error .typeError := by
  refine ⟨?_, ?_, ?_, ?_, ?_, ?_, ?_, ?_⟩ <;> decide

/-- C2: the claim says the degree-mode rewrite wraps exactly the call's
argument, `sin(X)` becoming `sin(radians(X))` in every context.  The code
violates this: the replacement text `fn(radians(` contains no closing
parenthesis, and the missing parentheses are appended at the end of the
whole expression by the auto-balancer, so in `sin(90)+1` the `+1` is
captured inside the argument of `sin`: the preprocessed text is
`sin(radians(90)+1)` and the code computes `sin(radians(90) + 1)` instead
of `sin(radians(90)) + 1`.  For a trig call that ends the input (e.g.
`sin(90)`) the rewrite does produce `sin(radians(90))`, and a preceding
letter suppresses the rewrite (`asin(2)` is untouched). -/
theorem C2_degree_rewrite_unclosed :
    preprocess "sin(90)+1" true = "sin(radians(90)+1)" ∧
    pyParse "sin(radians(90)+1)" = .ok sinPlusOneNode ∧
    (∀ (M : MathLib) (f : Nat), evalNode M (f + 4) sinPlusOneNode =
      (M.radiansF 90).bind (fun r => (M.sinF (r + 1)).map Value.num)) ∧
    preprocess "sin(90)" true = "sin(radians(90))" ∧
    preprocess "asin(2)" true = "asin(2)" :=
  ⟨by decide, rfl, evalNode_sinPlusOne, by decide, by decide⟩

/-- C4: a call to a function of the table with an argument count other
than one fails with the arity failure (after the arguments themselves
evaluated successfully), and the table holds exactly the ten unary
functions `sin`, `cos`, `tan`, `asin`, `acos`, `atan`, `log`, `ln`,
`sqrt`, `radians`. -/
theorem C4_arity :
    (∀ (M : MathLib) (nm : String), (fnTable M nm).isSome ↔
      nm ∈ ["sin", "cos", "tan", "asin", "acos", "atan", "log", "ln", "sqrt", "radians"]) ∧
    (∀ (M : MathLib) (f : Nat) (nm : String) (g : ℚ → Except Err ℚ)
      (args : List Node) (vs : List Value),
      fnTable M nm = some g → args.mapM (evalNode M f) = .ok vs → vs.length ≠ 1 →
      evalNode M (f + 1) (.call (.name nm) args) = .error .arityError) := by
  constructor
  · intro M nm
    simp only [fnTable]
    split_ifs <;> simp_all
  · intro M f nm g args vs hg hm hl
    simp only [evalNode, hg, hm, bind, Except.bind]
    match vs, hl with
    | [], _ => rfl
    | [v], hl => exact absurd rfl hl
    | v :: w :: t, _ => rfl

/-- Witness for C4 at `sin(1, 2)`. -/
theorem C4_arity_witness :
    fnTable mathLib0 "sin" = some mathLib0.sinF ∧
    (List.mapM (evalNode mathLib0 1) [Node.const (.num 1), Node.const (.num 2)] :
      Except Err (List Value)) = .ok [Value.num 1, Value.num 2] ∧
    evalNode mathLib0 2 (.call (.name "sin") [.const (.num 1), .const (.num 2)]) =
      .error .arityError :=
  ⟨rfl, by decide,
    C4_arity.2 mathLib0 1 "sin" mathLib0.sinF [Node.const (.num 1), Node.const (.num 2)]
      [Value.num 1, Value.num 2] rfl (by decide) (by decide)⟩

/-- C6: a division or modulo whose right operand evaluates to the number
zero (the left operand having evaluated to a numeric value) fails with
`ZeroDivisionError`, never producing an infinity or NaN; in particular
`1/0` and `5%0` fail in both angle modes. -/
theorem C6_division_by_zero :
    (∀ (M : MathLib) (f : Nat) (l r : Node) (vl : Value) (x : ℚ),
      evalNode M f l = .ok vl → asNum vl = some x → evalNode M f r = .ok (.num 0) →
      evalNode M (f + 1) (.binOp .div l r) = .error .zeroDivisionError) ∧
    (∀ (M : MathLib) (f : Nat) (l r : Node) (vl : Value) (x : ℚ),
      evalNode M f l = .ok vl → asNum vl = some x → evalNode M f r = .ok (.num 0) →
      evalNode M (f + 1) (.binOp .mod l r) = .error .zeroDivisionError) ∧
    (∀ (M : MathLib) (u : Bool), evaluate M u "1/0" = .error .zeroDivisionError) ∧
    (∀ (M : MathLib) (u : Bool), evaluate M u "5%0" = .error .zeroDivisionError) := by
  refine ⟨?_, ?_, fun M u => by cases u <;> rfl, fun M u => by cases u <;> rfl⟩
  · intro M f l r vl x hl hx hr
    simp [evalNode, binFn, hl, hr, bind, Except.bind, vDiv, hx,
      show asNum (Value.num 0) = some 0 from rfl]
  · intro M f l r vl x hl hx hr
    simp [evalNode, binFn, hl, hr, bind, Except.bind, vMod, hx,
      show asNum (Value.num 0) = some 0 from rfl]

/-- Witness for C6 at `1 / 0` and `1 % 0` on explicit trees. -/
theorem C6_division_by_zero_witness :
    evalNode mathLib0 1 (.const (.num 1)) = .ok (.num 1) ∧
    asNum (.num 1) = some 1 ∧
    evalNode mathLib0 1 (.const (.num 0)) = .ok (.num 0) ∧
    evalNode mathLib0 2 (.binOp .div (.const (.num 1)) (.const (.num 0))) =
      .error .zeroDivisionError ∧
    evalNode mathLib0 2 (.binOp .mod (.const (.num 1)) (.const (.num 0))) =
      .error .zeroDivisionError :=
  ⟨by decide, by decide, by decide,
    C6_division_by_zero.1 mathLib0 1 (.const (.num 1)) (.const (.num 0)) (.num 1) 1
      (by decide) (by decide) (by decide),
    C6_division_by_zero.2.1 mathLib0 1 (.const (.num 1)) (.const (.num 0)) (.num 1) 1
      (by decide) (by decide) (by decide)⟩

/-- C7: the constant table holds exactly `pi` and `e`; an identifier
outside it evaluates to `NameError` carrying that identifier, and a call
whose target name is outside the function table fails with `NameError`
carrying that name (before any argument is evaluated); in particular
`x+1` fails with the name `x` and `foo(1)` with the name `foo` in both
angle modes. -/
theorem C7_unknown_names :
    (∀ (M : MathLib) (nm : String), (constTable M nm).isSome ↔ nm = "pi" ∨ nm = "e") ∧
    (∀ (M : MathLib) (f : Nat) (nm : String), constTable M nm = Option.none →
      evalNode M (f + 1) (.name nm) = .error (.nameError nm)) ∧
    (∀ (M : MathLib) (f : Nat) (nm : String) (args : List Node), fnTable M nm = Option.none →
      evalNode M (f + 1) (.call (.name nm) args) = .error (.nameError nm)) ∧
    (∀ (M : MathLib) (u : Bool), evaluate M u "x+1" = .error (.nameError "x")) ∧
    (∀ (M : MathLib) (u : Bool), evaluate M u "foo(1)" = .error (.nameError "foo")) := by
  refine ⟨?_, ?_, ?_, fun M u => by cases u <;> rfl, fun M u => by cases u <;> rfl⟩
  · intro M nm
    simp only [constTable]
    split_ifs <;> simp_all
  · intro M f nm h
    simp [evalNode, h]
  · intro M f nm args h
    simp [evalNode, h]

/-- Witness for C7 at the identifier `x` and the call target `foo`. -/
theorem C7_unknown_names_witness :
    constTable mathLib0 "x" = Option.none ∧
    fnTable mathLib0 "foo" = Option.none ∧
    evalNode mathLib0 1 (.name "x") = .error (.nameError "x") ∧
    evalNode mathLib0 1 (.call (.name "foo") [.const (.num 1)]) = .error (.nameError "foo") :=
  ⟨rfl, rfl, C7_unknown_names.2.1 mathLib0 0 "x" rfl,
    C7_unknown_names.2.2.1 mathLib0 0 "foo" _ rfl⟩

/-- C8: each implicit-multiplication pass inserts a `*` at exactly the
adjacencies the claim describes (the leftmost non-overlapping scan never
misses an adjacency, because no consumed token character can begin or
complete another match); consequently `5pi` in degree mode evaluates to
5 times the constant `pi`, and `2(3+1)` evaluates to 8 in both modes. -/
theorem C8_implicit_multiplication :
    (∀ l : List Char, subA l = specInsA l) ∧
    (∀ l : List Char, subB l = specInsB l) ∧
    (∀ M : MathLib, evaluate M true "5pi" = .ok (.num (5 * M.piV))) ∧
    (∀ (M : MathLib) (u : Bool), evaluate M u "2(3+1)" = .ok (.num 8)) :=
  ⟨subA_spec, subB_spec, fun M => rfl, fun M u => by cases u <;> rfl⟩

/-- C9 counterexample: the claim asserts that inputs with an excess of `)`
fail at parse time, but an excess closing parenthesis inside a string
literal parses fine: the input consisting of a quoted `)` has one `)` and
no `(`, yet evaluates successfully (to a string — the C1 gap). -/
theorem C9_counterexample :
    ("')'" : String).toList.count '(' < ("')'" : String).toList.count ')' ∧
    evaluate mathLib0 false "')'" = .ok (.str ")") :=
  ⟨by decide, by decide⟩

/-- C9 (amended): when `(` outnumbers `)` the balancing stage appends
exactly the missing closing parentheses at the end, and otherwise leaves
the text unchanged — it never removes characters; `(2+3` evaluates to 5 in
both modes.  (An excess of `)` is not corrected, but it need not fail at
parse time: it can hide inside a string literal.) -/
theorem C9_auto_balance :
    (∀ l : List Char, l.count ')' < l.count '(' →
      autoBalance l = l ++ List.replicate (l.count '(' - l.count ')') ')') ∧
    (∀ l : List Char, l.count '(' ≤ l.count ')' → autoBalance l = l) ∧
    (∀ (M : MathLib) (u : Bool), evaluate M u "(2+3" = .ok (.num 5)) := by
  refine ⟨?_, ?_, fun M u => by cases u <;> rfl⟩
  · intro l h
    simp [autoBalance, h]
  · intro l h
    simp [autoBalance, Nat.not_lt.mpr h]

/-- Witness for C9 at the input `(2+3`. -/
theorem C9_auto_balance_witness :
    ("(2+3" : String).toList.count ')' < ("(2+3" : String).toList.count '(' ∧
    autoBalance ("(2+3" : String).toList =
      ("(2+3" : String).toList ++ List.replicate 1 ')' :=
  ⟨by decide, C9_auto_balance.1 ("(2+3" : String).toList (by decide)⟩

/-- C10: a digit immediately followed by a lowercase `e` always receives
an inserted `*` (first implicit-multiplication pass), so `2e3` becomes
`2*e3`, which fails with `NameError` for the residual identifier `e3`
rather than denoting 2000; with no exponent digits, `2e` becomes `2*e`,
twice the constant `e`. -/
theorem C10_sci_notation_mangled :
    (∀ u : Bool, preprocess "2e3" u = "2*e3") ∧
    (∀ (M : MathLib) (u : Bool), evaluate M u "2e3" = .error (.nameError "e3")) ∧
    (∀ (M : MathLib) (u : Bool), evaluate M u "2e" = .ok (.num (2 * M.eV))) :=
  ⟨fun u => by cases u <;> rfl, fun M u => by cases u <;> rfl,
    fun M u => by cases u <;> rfl⟩

/-- C3 counterexample: the claim says unary negation binds tighter than
power, so `-2^2` should be `(-2)^2 = 4`; the code follows Python, where
`-2**2 = -(2**2) = -4`. -/
theorem C3_counterexample :
    evaluate mathLib0 false "-2^2" = .ok (.num (-4)) ∧
    ((-2 : ℚ) ^ (2 : ℕ) = 4) ∧ ((-4 : ℚ) ≠ 4) :=
  ⟨by decide, by decide, by decide⟩

/-- C5 counterexample: `1/3` evaluates successfully, its formatted output
is `0.33333333`, and re-evaluating that string yields the rounded value
33333333/100000000, not the original result — the round trip does not
return the same value. -/
theorem C5_counterexample :
    evaluate mathLib0 false "1/3" = .ok (.num (1 / 3)) ∧
    format8g (1 / 3) = "0.33333333" ∧
    evaluate mathLib0 false "0.33333333" = .ok (.num (33333333 / 100000000)) ∧
    (1 / 3 : ℚ) ≠ 33333333 / 100000000 :=
  ⟨by decide, by decide, by decide, by decide⟩

/-! ## Lemmas on the preprocessing stages over restricted alphabets -/

theorem repPi_append (a b : List Char) : repPi (a ++ b) = repPi a ++ repPi b := by
  induction a with
  | nil => rfl
  | cons c cs ih => simp [repPi, ih]

theorem repPow_append (a b : List Char) : repPow (a ++ b) = repPow a ++ repPow b := by
  induction a with
  | nil => rfl
  | cons c cs ih => simp [repPow, ih]

theorem repSqrt_append (a b : List Char) : repSqrt (a ++ b) = repSqrt a ++ repSqrt b := by
  induction a with
  | nil => rfl
  | cons c cs ih => simp [repSqrt, ih]

theorem repPi_id {l : List Char} (h : ∀ c ∈ l, c ≠ 'π') : repPi l = l := by
  induction l with
  | nil => rfl
  | cons c cs ih =>
    simp only [repPi, h c (by simp), ih (fun d hd => h d (by simp [hd])), if_false]
    rfl

theorem repPow_id {l : List Char} (h : ∀ c ∈ l, c ≠ '^') : repPow l = l := by
  induction l with
  | nil => rfl
  | cons c cs ih =>
    simp only [repPow, h c (by simp), ih (fun d hd => h d (by simp [hd])), if_false]
    rfl

theorem repSqrt_id {l : List Char} (h : ∀ c ∈ l, c ≠ '√') : repSqrt l = l := by
  induction l with
  | nil => rfl
  | cons c cs ih =>
    simp only [repSqrt, h c (by simp), ih (fun d hd => h d (by simp [hd])), if_false]
    rfl

theorem specInsA_id {l : List Char} (h : ∀ c ∈ l, c ≠ 'p' ∧ c ≠ 'e' ∧ c ≠ '(') :
    specInsA l = l := by
  induction l with
  | nil => rfl
  | cons c cs ih =>
    have hs : startsPiE cs = false := by
      cases hh : startsPiE cs
      · rfl
      · rcases startsPiE_shapes hh with ⟨r, rfl⟩ | ⟨r, rfl⟩ | ⟨r, rfl⟩
        · exact absurd rfl (h 'p' (by simp)).1
        · exact absurd rfl (h 'e' (by simp)).2.1
        · exact absurd rfl (h '(' (by simp)).2.2
    simp [specInsA, hs, ih (fun d hd => h d (by simp [hd]))]

theorem specInsB_id {l : List Char} (h : ∀ c ∈ l, c ≠ ')') : specInsB l = l := by
  induction l with
  | nil => rfl
  | cons c cs ih =>
    simp [specInsB, h c (by simp), ih (fun d hd => h d (by simp [hd]))]

theorem trigName_none {l : List Char}
    (h : ∀ c, l.head? = some c → c ≠ 's' ∧ c ≠ 'c' ∧ c ≠ 't') : trigName l = none := by
  unfold trigName
  split
  · exact absurd rfl (h 's' rfl).1
  · exact absurd rfl (h 'c' rfl).2.1
  · exact absurd rfl (h 't' rfl).2.2
  · rfl

theorem trigGo_id {f : Nat} {p : Option Char} {l : List Char}
    (h : ∀ c ∈ l, c ≠ 's' ∧ c ≠ 'c' ∧ c ≠ 't') : trigGo f p l = l := by
  induction f generalizing p l with
  | zero => rfl
  | succ f ih =>
    have hn : trigName l = none := by
      refine trigName_none (fun c hc => h c ?_)
      cases l with
      | nil => exact absurd hc (by simp)
      | cons d ds => simp at hc; simp [hc]
    cases l with
    | nil => simp [trigGo, hn]
    | cons c cs =>
      simp only [trigGo, hn]
      exact congrArg (c :: ·) (ih (fun d hd => h d (by simp [hd])))

theorem autoBalance_id {l : List Char} (h1 : '(' ∉ l) : autoBalance l = l := by
  have c1 : l.count '(' = 0 := List.count_eq_zero.mpr h1
  simp [autoBalance, c1]

theorem dropWhile_id {p : Char → Bool} {l : List Char}
    (h : ∀ c, l.head? = some c → p c = false) : l.dropWhile p = l := by
  cases l with
  | nil => rfl
  | cons c cs => simp [List.dropWhile_cons, h c rfl]

theorem pyStrip_id {l : List Char} (h : ∀ c ∈ l, isPySpace c = false) : pyStrip l = l := by
  unfold pyStrip
  rw [dropWhile_id (fun c hc => h c (List.mem_of_mem_head? hc))]
  rw [dropWhile_id (fun c hc => h c (by
    have := List.mem_of_mem_head? hc
    simpa using this))]
  simp

/-! ## Lemmas on the lexer over numeral strings -/

theorem takeWhile_digits_append {xs rest : List Char} (hxs : ∀ c ∈ xs, c.isDigit = true)
    (hr : ∀ c, rest.head? = some c → c.isDigit = false) :
    (xs ++ rest).takeWhile Char.isDigit = xs ∧ (xs ++ rest).dropWhile Char.isDigit = rest := by
  induction xs with
  | nil =>
    simp only [List.nil_append]
    cases rest with
    | nil => simp
    | cons c cs => simp [List.takeWhile_cons, List.dropWhile_cons, hr c rfl]
  | cons c cs ih =>
    have hc := hxs c (by simp)
    obtain ⟨h1, h2⟩ := ih (fun d hd => hxs d (by simp [hd]))
    simp [List.takeWhile_cons, List.dropWhile_cons, hc, h1, h2]

theorem digit_not_space {c : Char} (h : c.isDigit = true) : isPySpace c = false := by
  cases hh : isPySpace c
  · rfl
  · simp only [isPySpace, Bool.or_eq_true, decide_eq_true_eq] at hh
    rcases hh with ((((rfl | rfl) | rfl) | rfl) | rfl) | rfl <;> simp at h

theorem numValue_int (xs : List Char) : numValue xs [] 0 = ((digitsVal xs : ℕ) : ℚ) := by
  show ((digitsVal xs : ℚ) + (digitsVal [] : ℚ) / powQ 10 (List.length [])) * zpowQ 10 0 =
    ((digitsVal xs : ℕ) : ℚ)
  norm_num [digitsVal, powQ, zpowQ]

theorem lexNumber_digits {xs rest : List Char} (hne : xs ≠ [])
    (hxs : ∀ c ∈ xs, c.isDigit = true)
    (hr : ∀ c, rest.head? = some c → c.isDigit = false ∧ c ≠ '.' ∧ c ≠ 'e' ∧ c ≠ 'E')
    (hlz : xs.head? = some '0' → ∀ c ∈ xs, c = '0') :
    lexNumber (xs ++ rest) = .ok (.num ((digitsVal xs : ℕ) : ℚ), rest) := by
  obtain ⟨htake, hdrop⟩ :=
    takeWhile_digits_append hxs (fun c hc => (hr c hc).1)
  simp only [lexNumber, htake, hdrop]
  have hz : (xs.head? = some '0' && xs.any (fun c => c ≠ '0')) = false := by
    cases hh : xs.head? with
    | none => simp
    | some c =>
      by_cases hc : c = '0'
      · subst hc
        have := hlz hh
        simp only [Bool.and_eq_false_iff]
        right
        simp only [List.any_eq_false]
        intro d hd
        simp [this d hd]
      · simp [hh, hc]
  split
  · exact absurd rfl (hr '.' rfl).2.1
  · exact absurd rfl (hr 'e' rfl).2.2.1
  · exact absurd rfl (hr 'E' rfl).2.2.2
  · rw [hz]
    simp [numValue_int]

theorem tokGo_nil (f : Nat) : tokGo f [] = .ok [] := by
  cases f <;> rfl

theorem tokGo_step (f : Nat) (c : Char) (l r : List Char) (t : Tok)
    (hsp : isPySpace c = false) (hlex : lexOne (c :: l) = .ok (t, r)) :
    tokGo (f + 1) (c :: l) = (tokGo f r).map (fun ts => t :: ts) := by
  rw [show tokGo (f + 1) (c :: l) =
      (let l1 := (c :: l).dropWhile isPySpace;
       if l1.isEmpty then .ok []
       else do
         let (t2, r2) ← lexOne l1
         let ts ← tokGo f r2
         .ok (t2 :: ts)) from rfl]
  simp only [List.dropWhile_cons, hsp, Bool.false_eq_true, if_false, List.isEmpty_cons, hlex]
  cases h : tokGo f r <;> simp [bind, Except.bind, Except.map, h]

theorem lexOne_cons_digit {c : Char} {l : List Char} (hc : c.isDigit = true) :
    lexOne (c :: l) = lexNumber (c :: l) := by
  rw [lexOne.eq_def]
  exact if_pos hc

theorem lexOne_minus {l : List Char} : lexOne ('-' :: l) = .ok (.minus, l) := rfl

theorem lexOne_star2 {l : List Char} : lexOne ('*' :: '*' :: l) = .ok (.dstar, l) := rfl

theorem lexOne_digits {xs rest : List Char} (hne : xs ≠ [])
    (hxs : ∀ c ∈ xs, c.isDigit = true)
    (hr : ∀ c, rest.head? = some c → c.isDigit = false ∧ c ≠ '.' ∧ c ≠ 'e' ∧ c ≠ 'E')
    (hlz : xs.head? = some '0' → ∀ c ∈ xs, c = '0') :
    lexOne (xs ++ rest) = .ok (.num ((digitsVal xs : ℕ) : ℚ), rest) := by
  obtain ⟨c, cs, rfl⟩ : ∃ c cs, xs = c :: cs := by
    cases xs with
    | nil => exact absurd rfl hne
    | cons c cs => exact ⟨c, cs, rfl⟩
  rw [List.cons_append, lexOne_cons_digit (hxs c (by simp)), ← List.cons_append]
  exact lexNumber_digits hne hxs hr hlz

theorem tokGo_num (f : Nat) (xs rest : List Char) (hne : xs ≠ [])
    (hxs : ∀ c ∈ xs, c.isDigit = true)
    (hr : ∀ c, rest.head? = some c → c.isDigit = false ∧ c ≠ '.' ∧ c ≠ 'e' ∧ c ≠ 'E')
    (hlz : xs.head? = some '0' → ∀ c ∈ xs, c = '0') :
    tokGo (f + 1) (xs ++ rest) =
      (tokGo f rest).map (fun ts => Tok.num ((digitsVal xs : ℕ) : ℚ) :: ts) := by
  have hlex := lexOne_digits hne hxs hr hlz
  obtain ⟨c, cs, rfl⟩ : ∃ c cs, xs = c :: cs := by
    cases xs with
    | nil => exact absurd rfl hne
    | cons c cs => exact ⟨c, cs, rfl⟩
  rw [List.cons_append] at hlex ⊢
  exact tokGo_step f c (cs ++ rest) rest _ (digit_not_space (hxs c (by simp))) hlex

theorem tokGo_num_end (f : Nat) (xs : List Char) (hne : xs ≠ [])
    (hxs : ∀ c ∈ xs, c.isDigit = true)
    (hlz : xs.head? = some '0' → ∀ c ∈ xs, c = '0') :
    tokGo (f + 1) xs = .ok [Tok.num ((digitsVal xs : ℕ) : ℚ)] := by
  have h := tokGo_num f xs [] hne hxs (fun c hc => by simp at hc) hlz
  rw [List.append_nil] at h
  rw [h, tokGo_nil]
  rfl

theorem tokenize_negpow {xs ys : List Char} (hxne : xs ≠ []) (hyne : ys ≠ [])
    (hxs : ∀ c ∈ xs, c.isDigit = true) (hys : ∀ c ∈ ys, c.isDigit = true)
    (hlzx : xs.head? = some '0' → ∀ c ∈ xs, c = '0')
    (hlzy : ys.head? = some '0' → ∀ c ∈ ys, c = '0') :
    tokenize ('-' :: xs ++ '*' :: '*' :: ys) =
      .ok [.minus, .num ((digitsVal xs : ℕ) : ℚ), .dstar, .num ((digitsVal ys : ℕ) : ℚ)] := by
  unfold tokenize
  obtain ⟨f, hf⟩ : ∃ f, ('-' :: xs ++ '*' :: '*' :: ys).length + 1 = f + 4 :=
    ⟨xs.length + ys.length, by simp; omega⟩
  rw [hf, List.cons_append]
  rw [show f + 4 = (f + 3) + 1 from rfl,
    tokGo_step (f + 3) '-' (xs ++ '*' :: '*' :: ys) (xs ++ '*' :: '*' :: ys) Tok.minus
      rfl lexOne_minus]
  rw [show f + 3 = (f + 2) + 1 from rfl,
    tokGo_num (f + 2) xs ('*' :: '*' :: ys) hxne hxs (fun c hc => by
      simp only [List.head?_cons, Option.some.injEq] at hc
      subst hc
      exact ⟨rfl, by decide, by decide, by decide⟩) hlzx]
  rw [show f + 2 = (f + 1) + 1 from rfl,
    tokGo_step (f + 1) '*' ('*' :: ys) ys Tok.dstar rfl lexOne_star2]
  rw [tokGo_num_end f ys hyne hys hlzy]
  rfl

theorem parseTop_negpow (a b : ℚ) :
    parseTop 80 [.minus, .num a, .dstar, .num b] =
      .ok (.unaryOp .usub (.binOp .pow (.const (.num a)) (.const (.num b)))) := rfl

theorem powQ_eq_pow (q : ℚ) (n : ℕ) : powQ q n = q ^ n := by
  induction n with
  | zero => rfl
  | succ n ih => rw [powQ, ih, pow_succ, mul_comm]

theorem evalNode_negpow (M : MathLib) (A : ℚ) (b : ℕ) :
    evalNode M 5
      (.unaryOp .usub (.binOp .pow (.const (.num A)) (.const (.num ((b : ℕ) : ℚ))))) =
      .ok (.num (-(A ^ b))) := by
  simp [evalNode, uFn, binFn, bind, Except.bind, vPow, asNum, qpow, vNeg,
    Rat.den_natCast, Rat.num_natCast, Except.map, powQ_eq_pow]

theorem digit_ne {c d : Char} (h : c.isDigit = true) (hd : d.isDigit = false) : c ≠ d := by
  intro e
  subst e
  rw [h] at hd
  cases hd

theorem evaluate_negpow (M : MathLib) (u : Bool) (xs ys : List Char)
    (hxne : xs ≠ []) (hyne : ys ≠ [])
    (hxs : ∀ c ∈ xs, c.isDigit = true) (hys : ∀ c ∈ ys, c.isDigit = true)
    (hlzx : xs.head? = some '0' → ∀ c ∈ xs, c = '0')
    (hlzy : ys.head? = some '0' → ∀ c ∈ ys, c = '0') :
    evaluate M u (String.mk ('-' :: xs ++ '^' :: ys)) =
      .ok (.num (-((digitsVal xs : ℚ) ^ digitsVal ys))) := by
  have hmem0 : ∀ c ∈ ('-' :: xs ++ '^' :: ys), c = '-' ∨ c = '^' ∨ c.isDigit = true := by
    intro c hc
    simp only [List.cons_append, List.mem_cons, List.mem_append] at hc
    rcases hc with rfl | hc2
    · exact Or.inl rfl
    rcases hc2 with hx | hy
    · exact Or.inr (Or.inr (hxs c hx))
    rcases hy with rfl | hy2
    · exact Or.inr (Or.inl rfl)
    · exact Or.inr (Or.inr (hys c hy2))
  have hmem1 : ∀ c ∈ ('-' :: xs ++ '*' :: '*' :: ys), c = '-' ∨ c = '*' ∨ c.isDigit = true := by
    intro c hc
    simp only [List.cons_append, List.mem_cons, List.mem_append] at hc
    rcases hc with rfl | hc2
    · exact Or.inl rfl
    rcases hc2 with hx | hy
    · exact Or.inr (Or.inr (hxs c hx))
    rcases hy with rfl | rfl | hy2
    · exact Or.inr (Or.inl rfl)
    · exact Or.inr (Or.inl rfl)
    · exact Or.inr (Or.inr (hys c hy2))
  have hpre : preprocess (String.mk ('-' :: xs ++ '^' :: ys)) u =
      String.mk ('-' :: xs ++ '*' :: '*' :: ys) := by
    unfold preprocess
    dsimp only
    rw [show (String.mk ('-' :: xs ++ '^' :: ys)).toList = '-' :: xs ++ '^' :: ys from rfl]
    rw [repPi_id (fun c hc => by
      rcases hmem0 c hc with rfl | rfl | h
      · decide
      · decide
      · exact digit_ne h rfl)]
    rw [show ('-' :: xs ++ '^' :: ys) = ('-' :: xs) ++ ('^' :: ys) from rfl, repPow_append]
    rw [show repPow ('-' :: xs) = '-' :: repPow xs from rfl,
      repPow_id (fun c hc => digit_ne (hxs c hc) rfl),
      show repPow ('^' :: ys) = '*' :: '*' :: repPow ys from rfl,
      repPow_id (fun c hc => digit_ne (hys c hc) rfl)]
    rw [show ('-' :: xs) ++ ('*' :: '*' :: ys) = '-' :: xs ++ '*' :: '*' :: ys from rfl]
    rw [repSqrt_id (fun c hc => by
      rcases hmem1 c hc with rfl | rfl | h
      · decide
      · decide
      · exact digit_ne h rfl)]
    have hsubA : subA ('-' :: xs ++ '*' :: '*' :: ys) = '-' :: xs ++ '*' :: '*' :: ys := by
      rw [subA_spec]
      refine specInsA_id (fun c hc => ?_)
      rcases hmem1 c hc with rfl | rfl | h
      · exact ⟨by decide, by decide, by decide⟩
      · exact ⟨by decide, by decide, by decide⟩
      · exact ⟨digit_ne h rfl, digit_ne h rfl, digit_ne h rfl⟩
    have hsubB : subB ('-' :: xs ++ '*' :: '*' :: ys) = '-' :: xs ++ '*' :: '*' :: ys := by
      rw [subB_spec]
      refine specInsB_id (fun c hc => ?_)
      rcases hmem1 c hc with rfl | rfl | h
      · decide
      · decide
      · exact digit_ne h rfl
    rw [hsubA, hsubB]
    have htrig : ∀ c ∈ ('-' :: xs ++ '*' :: '*' :: ys), c ≠ 's' ∧ c ≠ 'c' ∧ c ≠ 't' := by
      intro c hc
      rcases hmem1 c hc with rfl | rfl | h
      · exact ⟨by decide, by decide, by decide⟩
      · exact ⟨by decide, by decide, by decide⟩
      · exact ⟨digit_ne h rfl, digit_ne h rfl, digit_ne h rfl⟩
    have hbal : autoBalance ('-' :: xs ++ '*' :: '*' :: ys) = '-' :: xs ++ '*' :: '*' :: ys := by
      refine autoBalance_id (fun hc => ?_)
      rcases hmem1 '(' hc with h | h | h
      · cases h
      · cases h
      · cases h
    cases u
    · simp only [if_false, Bool.false_eq_true, hbal]
    · simp only [if_true, trigSub, trigGo_id htrig, hbal]
  unfold evaluate
  dsimp only
  rw [show (String.mk ('-' :: xs ++ '^' :: ys)).toList = '-' :: xs ++ '^' :: ys from rfl]
  rw [pyStrip_id (fun c hc => by
    rcases hmem0 c hc with rfl | rfl | h
    · decide
    · decide
    · exact digit_not_space h)]
  rw [show ('-' :: xs ++ '^' :: ys).isEmpty = false from by simp]
  simp only [Bool.false_eq_true, if_false]
  rw [hpre]
  rw [show (String.mk ('-' :: xs ++ '*' :: '*' :: ys)).toList =
    '-' :: xs ++ '*' :: '*' :: ys from rfl]
  rw [tokenize_negpow hxne hyne hxs hys hlzx hlzy]
  simp only [List.length_cons, List.length_nil]
  rw [show (16 * (0 + 1 + 1 + 1 + 1 + 1) : Nat) = 80 from by norm_num]
  rw [parseTop_negpow]
  rw [show (0 + 1 + 1 + 1 + 1 + 1 : Nat) = 5 from by norm_num]
  exact evalNode_negpow M _ _

/-- C3 (amended): precedence is power above unary minus on its left —
an input `-x^y` evaluates as `-(x^y)` for every pair of decimal numerals
`x`, `y` (Python's rule, contrary to the claim's `(-x)^y`) — while a sign
immediately right of the power operator binds tighter (`2^-1` is 1/2);
power is right-associative, addition, subtraction, multiplication,
division and modulo are left-associative with mul/div/mod above add/sub,
and parentheses override. -/
theorem C3_precedence_amended :
    (∀ (M : MathLib) (u : Bool) (xs ys : List Char), xs ≠ [] → ys ≠ [] →
      (∀ c ∈ xs, c.isDigit = true) → (∀ c ∈ ys, c.isDigit = true) →
      (xs.head? = some '0' → ∀ c ∈ xs, c = '0') →
      (ys.head? = some '0' → ∀ c ∈ ys, c = '0') →
      evaluate M u (String.mk ('-' :: xs ++ '^' :: ys)) =
        .ok (.num (-((digitsVal xs : ℚ) ^ digitsVal ys)))) ∧
    (∀ (M : MathLib) (u : Bool),
      evaluate M u "2^3^2" = .ok (.num 512) ∧
      evaluate M u "2-3-4" = .ok (.num (-5)) ∧
      evaluate M u "2+3*4" = .ok (.num 14) ∧
      evaluate M u "2*3^2" = .ok (.num 18) ∧
      evaluate M u "10-4%3" = .ok (.num 9) ∧
      evaluate M u "(2+3)*4" = .ok (.num 20) ∧
      evaluate M u "2^-1" = .ok (.num (1 / 2))) := by
  refine ⟨fun M u xs ys h1 h2 h3 h4 h5 h6 => evaluate_negpow M u xs ys h1 h2 h3 h4 h5 h6,
    fun M u => ?_⟩
  cases u <;> exact ⟨rfl, rfl, rfl, rfl, rfl, rfl, rfl⟩

/-- Witness for C3 at `x = 2`, `y = 2`: the input `-2^2` evaluates to
`-(2^2) = -4`. -/
theorem C3_precedence_amended_witness :
    (['2'] : List Char) ≠ [] ∧ (∀ c ∈ (['2'] : List Char), c.isDigit = true) ∧
    evaluate mathLib0 false (String.mk ('-' :: ['2'] ++ '^' :: ['2'])) =
      .ok (.num (-((digitsVal ['2'] : ℚ) ^ digitsVal ['2']))) :=
  ⟨by decide, by decide,
    C3_precedence_amended.1 mathLib0 false ['2'] ['2'] (by decide) (by decide)
      (by decide) (by decide) (by decide) (by decide)⟩
/-! ## Decimal digits of naturals: correctness of `natDigits` -/

theorem digitChar_isDigit {k : ℕ} (h : k < 10) : (Char.ofNat (48 + k)).isDigit = true := by
  interval_cases k <;> decide

theorem digitChar_val {k : ℕ} (h : k < 10) : (Char.ofNat (48 + k)).toNat - 48 = k := by
  interval_cases k <;> decide

theorem digitChar_ne_zero {k : ℕ} (h1 : 0 < k) (h2 : k < 10) : Char.ofNat (48 + k) ≠ '0' := by
  interval_cases k <;> decide

theorem digitsVal_from (l : List Char) (i : ℕ) :
    l.foldl (fun a c => a * 10 + (c.toNat - 48)) i = i * 10 ^ l.length + digitsVal l := by
  induction l generalizing i with
  | nil => simp [digitsVal]
  | cons c cs ih =>
    show cs.foldl _ (i * 10 + (c.toNat - 48)) = _
    rw [ih (i * 10 + (c.toNat - 48))]
    have h2 : digitsVal (c :: cs) = (c.toNat - 48) * 10 ^ cs.length + digitsVal cs := by
      show cs.foldl _ (0 * 10 + (c.toNat - 48)) = _
      rw [ih (0 * 10 + (c.toNat - 48))]
      ring
    rw [h2]
    simp [List.length_cons]
    ring

theorem digitsVal_append (a b : List Char) :
    digitsVal (a ++ b) = digitsVal a * 10 ^ b.length + digitsVal b := by
  unfold digitsVal
  rw [List.foldl_append]
  exact digitsVal_from b _

theorem natDigitsGo_append : ∀ (f n : ℕ) (acc : List Char),
    natDigitsGo f n acc = natDigitsGo f n [] ++ acc := by
  intro f
  induction f with
  | zero => intro n acc; rfl
  | succ f ih =>
    intro n acc
    by_cases h : n = 0
    · simp [natDigitsGo, h]
    · rw [show natDigitsGo (f + 1) n acc =
        natDigitsGo f (n / 10) (Char.ofNat (48 + n % 10) :: acc) from by
          simp [natDigitsGo, h]]
      rw [show natDigitsGo (f + 1) n [] =
        natDigitsGo f (n / 10) [Char.ofNat (48 + n % 10)] from by
          simp [natDigitsGo, h]]
      rw [ih (n / 10) (Char.ofNat (48 + n % 10) :: acc),
        ih (n / 10) [Char.ofNat (48 + n % 10)]]
      simp

theorem natDigitsGo_fuel : ∀ (n f1 f2 : ℕ), n < f1 → n < f2 →
    natDigitsGo f1 n [] = natDigitsGo f2 n [] := by
  intro n
  induction n using Nat.strong_induction_on with
  | _ n ih =>
    intro f1 f2 h1 h2
    obtain ⟨g1, rfl⟩ : ∃ g, f1 = g + 1 := ⟨f1 - 1, by omega⟩
    obtain ⟨g2, rfl⟩ : ∃ g, f2 = g + 1 := ⟨f2 - 1, by omega⟩
    by_cases h : n = 0
    · simp [natDigitsGo, h]
    · rw [show natDigitsGo (g1 + 1) n [] =
        natDigitsGo g1 (n / 10) [Char.ofNat (48 + n % 10)] from by simp [natDigitsGo, h],
        show natDigitsGo (g2 + 1) n [] =
        natDigitsGo g2 (n / 10) [Char.ofNat (48 + n % 10)] from by simp [natDigitsGo, h]]
      rw [natDigitsGo_append g1, natDigitsGo_append g2]
      have hd : n / 10 < n := Nat.div_lt_self (by omega) (by omega)
      rw [ih (n / 10) hd g1 g2 (by omega) (by omega)]

theorem natDigits_unfold {n : ℕ} (h0 : 0 < n) (h10 : 10 ≤ n) :
    natDigits n = natDigits (n / 10) ++ [Char.ofNat (48 + n % 10)] := by
  have hne : n ≠ 0 := by omega
  have hd0 : n / 10 ≠ 0 := by
    have h1 : 10 / 10 ≤ n / 10 := Nat.div_le_div_right h10
    simp at h1
    omega
  rw [show natDigits n = natDigitsGo (n + 1) n [] from by simp [natDigits, hne]]
  rw [show natDigitsGo (n + 1) n [] =
    natDigitsGo n (n / 10) [Char.ofNat (48 + n % 10)] from by simp [natDigitsGo, hne]]
  rw [natDigitsGo_append]
  rw [show natDigits (n / 10) = natDigitsGo (n / 10 + 1) (n / 10) [] from by
    simp [natDigits, hd0]]
  have hd : n / 10 < n := Nat.div_lt_self (by omega) (by omega)
  rw [natDigitsGo_fuel (n / 10) n (n / 10 + 1) (by omega) (by omega)]

theorem natDigits_small {n : ℕ} (h0 : 0 < n) (h10 : n < 10) :
    natDigits n = [Char.ofNat (48 + n)] := by
  have hne : n ≠ 0 := by omega
  rw [show natDigits n = natDigitsGo (n + 1) n [] from by simp [natDigits, hne]]
  rw [show natDigitsGo (n + 1) n [] =
    natDigitsGo n (n / 10) [Char.ofNat (48 + n % 10)] from by simp [natDigitsGo, hne]]
  have hd0 : n / 10 = 0 := Nat.div_eq_of_lt h10
  have hm : n % 10 = n := Nat.mod_eq_of_lt h10
  rw [hd0, hm]
  cases n with
  | zero => omega
  | succ k => rfl

theorem natDigits_props : ∀ n : ℕ, 0 < n →
    (∀ c ∈ natDigits n, c.isDigit = true) ∧
    digitsVal (natDigits n) = n ∧
    natDigits n ≠ [] ∧
    (∀ c, (natDigits n).head? = some c → c ≠ '0') ∧
    (10 ^ ((natDigits n).length - 1) ≤ n ∧ n < 10 ^ (natDigits n).length) := by
  intro n
  induction n using Nat.strong_induction_on with
  | _ n ih =>
    intro h0
    by_cases h10 : n < 10
    · rw [natDigits_small h0 h10]
      have hm : n % 10 = n := Nat.mod_eq_of_lt h10
      refine ⟨?_, ?_, by simp, ?_, by simpa using ⟨h0, h10⟩⟩
      · intro c hc
        simp at hc
        subst hc
        exact digitChar_isDigit h10
      · show digitsVal [Char.ofNat (48 + n)] = n
        simp [digitsVal, digitChar_val h10]
      · intro c hc
        simp at hc
        subst hc
        exact digitChar_ne_zero h0 h10
    · push_neg at h10
      rw [natDigits_unfold h0 h10]
      have hdpos : 0 < n / 10 := by
        have h1 : 10 / 10 ≤ n / 10 := Nat.div_le_div_right h10
        simpa using h1
      have hdlt : n / 10 < n := Nat.div_lt_self h0 (by omega)
      obtain ⟨ihd, ihv, ihne, ihhd, ihlo, ihhi⟩ := ih (n / 10) hdlt hdpos
      have hm10 : n % 10 < 10 := Nat.mod_lt _ (by omega)
      refine ⟨?_, ?_, by simp, ?_, ?_, ?_⟩
      · intro c hc
        simp only [List.mem_append, List.mem_singleton] at hc
        rcases hc with hc | rfl
        · exact ihd c hc
        · exact digitChar_isDigit hm10
      · rw [digitsVal_append, ihv]
        show n / 10 * 10 ^ (1 : ℕ) + digitsVal [Char.ofNat (48 + n % 10)] = n
        have : digitsVal [Char.ofNat (48 + n % 10)] = n % 10 := by
          simp [digitsVal, digitChar_val hm10]
        rw [this]
        simp [pow_one]
        omega
      · intro c hc
        rw [List.head?_append_of_ne_nil _ ihne] at hc
        exact ihhd c hc
      · rw [List.length_append, List.length_singleton]
        have hlen : 1 ≤ (natDigits (n / 10)).length := by
          cases hh : natDigits (n / 10) with
          | nil => exact absurd hh ihne
          | cons a b => simp
        calc 10 ^ ((natDigits (n / 10)).length + 1 - 1)
            = 10 ^ ((natDigits (n / 10)).length - 1) * 10 ^ 1 := by
              rw [← pow_add]
              congr 1
              omega
          _ ≤ n / 10 * 10 := by
              rw [pow_one]
              exact Nat.mul_le_mul_right _ ihlo
          _ ≤ n := Nat.div_mul_le_self n 10
      · rw [List.length_append, List.length_singleton]
        calc n < (n / 10 + 1) * 10 := by
              have := Nat.mod_lt n (show 0 < 10 from by omega)
              have h2 := Nat.div_add_mod n 10
              omega
          _ ≤ 10 ^ (natDigits (n / 10)).length * 10 := by
              exact Nat.mul_le_mul_right _ (by omega)
          _ = 10 ^ ((natDigits (n / 10)).length + 1) := by
              rw [pow_succ]

theorem log10Go_bounds : ∀ n f : ℕ, 0 < n → n ≤ f →
    10 ^ log10Go f n ≤ n ∧ n < 10 ^ (log10Go f n + 1) := by
  intro n
  induction n using Nat.strong_induction_on with
  | _ n ih =>
    intro f h0 hf
    obtain ⟨g, rfl⟩ : ∃ g, f = g + 1 := ⟨f - 1, by omega⟩
    by_cases h10 : n < 10
    · rw [show log10Go (g + 1) n = 0 from by simp [log10Go, h10]]
      constructor
      · simpa using h0
      · simpa using h10
    · push_neg at h10
      rw [show log10Go (g + 1) n = log10Go g (n / 10) + 1 from by
        simp [log10Go]
        omega]
      have hdpos : 0 < n / 10 := by
        have h1 : 10 / 10 ≤ n / 10 := Nat.div_le_div_right h10
        simpa using h1
      have hdlt : n / 10 < n := Nat.div_lt_self h0 (by omega)
      obtain ⟨lo, hi⟩ := ih (n / 10) hdlt g hdpos (by omega)
      constructor
      · calc 10 ^ (log10Go g (n / 10) + 1) = 10 ^ log10Go g (n / 10) * 10 := by rw [pow_succ]
          _ ≤ n / 10 * 10 := Nat.mul_le_mul_right _ lo
          _ ≤ n := Nat.div_mul_le_self n 10
      · calc n < (n / 10 + 1) * 10 := by
              have := Nat.mod_lt n (show 0 < 10 from by omega)
              have h2 := Nat.div_add_mod n 10
              omega
          _ ≤ 10 ^ (log10Go g (n / 10) + 1) * 10 := Nat.mul_le_mul_right _ (by omega)
          _ = 10 ^ (log10Go g (n / 10) + 1 + 1) := by ring

theorem log10N_bounds {n : ℕ} (h : 0 < n) :
    10 ^ log10N n ≤ n ∧ n < 10 ^ (log10N n + 1) :=
  log10Go_bounds n n h le_rfl

theorem pow10_interval_unique {a b n : ℕ} (ha1 : 10 ^ a ≤ n) (ha2 : n < 10 ^ (a + 1))
    (hb1 : 10 ^ b ≤ n) (hb2 : n < 10 ^ (b + 1)) : a = b := by
  by_contra hne
  rcases Nat.lt_or_ge a b with h | h
  · have : 10 ^ (a + 1) ≤ 10 ^ b := Nat.pow_le_pow_right (by omega) (by omega)
    omega
  · have hab : b < a := by omega
    have : 10 ^ (b + 1) ≤ 10 ^ a := Nat.pow_le_pow_right (by omega) (by omega)
    omega

theorem length_natDigits {n : ℕ} (h : 0 < n) : (natDigits n).length = log10N n + 1 := by
  obtain ⟨_, _, hne, _, hlo, hhi⟩ := natDigits_props n h
  obtain ⟨llo, lhi⟩ := log10N_bounds h
  have hlen : 1 ≤ (natDigits n).length := by
    cases hh : natDigits n with
    | nil => exact absurd hh hne
    | cons a b => simp
  have heq : (natDigits n).length - 1 = log10N n := by
    refine pow10_interval_unique hlo ?_ llo lhi
    have : (natDigits n).length - 1 + 1 = (natDigits n).length := by omega
    rw [this]
    exact hhi
  omega

theorem natDigits_mul_pow10 {n : ℕ} (h : 0 < n) :
    ∀ k : ℕ, natDigits (n * 10 ^ k) = natDigits n ++ List.replicate k '0' := by
  intro k
  induction k with
  | zero => simp
  | succ k ih =>
    have hm : 0 < n * 10 ^ k := by positivity
    have h1 : n * 10 ^ (k + 1) = n * 10 ^ k * 10 := by ring
    rw [h1]
    rw [natDigits_unfold (by positivity) (by
      calc 10 = 1 * 10 := by omega
        _ ≤ n * 10 ^ k * 10 := Nat.mul_le_mul_right _ hm)]
    rw [Nat.mul_div_cancel _ (show 0 < 10 from by omega),
      Nat.mul_mod_left, ih]
    rw [show Char.ofNat (48 + 0) = '0' from rfl]
    rw [List.append_assoc, ← List.replicate_succ' k '0']

theorem dropWhile_replicate_zero (k : ℕ) :
    List.dropWhile (fun c => c = '0') (List.replicate k '0') = [] := by
  induction k with
  | zero => rfl
  | succ k ih => simpa [List.replicate_succ, List.dropWhile_cons] using ih

theorem trimZeros_replicate (k : ℕ) : trimZeros (List.replicate k '0') = [] := by
  unfold trimZeros
  rw [List.reverse_replicate, dropWhile_replicate_zero]
  rfl

theorem floorQ_natCast (m : ℕ) : floorQ ((m : ℕ) : ℚ) = (m : ℤ) := by
  unfold floorQ
  rw [Rat.num_natCast, Rat.den_natCast]
  rw [show ((m : ℤ).fdiv ((1 : ℕ) : ℤ)) = (m : ℤ).fdiv 1 from by norm_num]
  rw [Int.fdiv_one]

theorem roundHE_natCast (m : ℕ) : roundHE ((m : ℕ) : ℚ) = (m : ℤ) := by
  unfold roundHE
  dsimp only
  rw [floorQ_natCast]
  rw [show ((m : ℚ) - ((m : ℤ) : ℚ)) = 0 from by push_cast; ring]
  norm_num

theorem zpowQ_ofNat (q : ℚ) (k : ℕ) : zpowQ q ((k : ℕ) : ℤ) = powQ q k := rfl

theorem sigExp_nat {n : ℕ} (h : 0 < n) : sigExp ((n : ℕ) : ℚ) = (log10N n : ℤ) := by
  obtain ⟨llo, lhi⟩ := log10N_bounds h
  unfold sigExp
  dsimp only
  rw [Rat.num_natCast, Rat.den_natCast, show ((n : ℤ)).natAbs = n from rfl]
  rw [show log10N 1 = 0 from rfl]
  rw [show (log10N n : ℤ) - (0 : ℕ) = ((log10N n : ℕ) : ℤ) from by push_cast; ring]
  rw [show ((log10N n : ℕ) : ℤ) + 1 = ((log10N n + 1 : ℕ) : ℤ) from by push_cast; ring]
  rw [zpowQ_ofNat, zpowQ_ofNat, powQ_eq_pow, powQ_eq_pow]
  rw [show ((10 : ℚ) ^ (log10N n + 1)) = (((10 ^ (log10N n + 1) : ℕ)) : ℚ) from by push_cast; ring]
  rw [show ((10 : ℚ) ^ (log10N n)) = (((10 ^ (log10N n) : ℕ)) : ℚ) from by push_cast; ring]
  rw [if_neg (by
    rw [Nat.cast_le]
    omega)]
  rw [if_pos (by
    rw [Nat.cast_le]
    exact llo)]

theorem format8g_nat {n : ℕ} (h0 : 0 < n) (h8 : n < 10 ^ 8) :
    format8g ((n : ℕ) : ℚ) = String.mk (natDigits n) := by
  obtain ⟨llo, lhi⟩ := log10N_bounds h0
  have hL7 : log10N n ≤ 7 := by
    by_contra hc
    push_neg at hc
    have : (10 : ℕ) ^ 8 ≤ 10 ^ log10N n := Nat.pow_le_pow_right (by omega) (by omega)
    omega
  unfold format8g
  rw [if_neg (by
    rw [Nat.cast_eq_zero]
    omega)]
  rw [if_neg (by
    push_neg
    positivity)]
  unfold format8gPos
  dsimp only
  rw [sigExp_nat h0]
  rw [show (7 : ℤ) - (log10N n : ℤ) = ((7 - log10N n : ℕ) : ℤ) from by
    rw [Nat.cast_sub hL7]
    norm_num]
  rw [zpowQ_ofNat, powQ_eq_pow]
  rw [show ((n : ℚ) * (10 : ℚ) ^ (7 - log10N n)) =
    (((n * 10 ^ (7 - log10N n) : ℕ)) : ℚ) from by push_cast; ring]
  rw [roundHE_natCast]
  have hmlt : n * 10 ^ (7 - log10N n) < 10 ^ 8 := by
    calc n * 10 ^ (7 - log10N n) < 10 ^ (log10N n + 1) * 10 ^ (7 - log10N n) :=
          (Nat.mul_lt_mul_right (by positivity)).mpr lhi
      _ = 10 ^ (log10N n + 1 + (7 - log10N n)) := by rw [← pow_add]
      _ = 10 ^ 8 := by
          congr 1
          omega
  have hne10 : ((n * 10 ^ (7 - log10N n) : ℕ) : ℤ) ≠ 10 ^ 8 := by
    have : ((n * 10 ^ (7 - log10N n) : ℕ) : ℤ) < ((10 ^ 8 : ℕ) : ℤ) := by
      rw [Int.ofNat_lt]
      exact hmlt
    intro heq
    rw [heq] at this
    norm_num at this
  rw [if_neg hne10, if_neg hne10]
  rw [if_neg (by
    push_neg
    constructor
    · have h7 : (log10N n : ℤ) ≤ 7 := by exact_mod_cast hL7
      omega
    · have hz : (0 : ℤ) ≤ (log10N n : ℤ) := Int.natCast_nonneg _
      omega)]
  rw [show ((n * 10 ^ (7 - log10N n) : ℕ) : ℤ).toNat = n * 10 ^ (7 - log10N n) from rfl]
  unfold renderFixed
  dsimp only
  rw [natDigits_mul_pow10 h0]
  rw [if_pos (Int.natCast_nonneg _)]
  rw [show ((log10N n : ℕ) : ℤ).toNat + 1 = (natDigits n).length from by
    rw [show ((log10N n : ℕ) : ℤ).toNat = log10N n from rfl, length_natDigits h0]]
  rw [List.take_left, List.drop_left, trimZeros_replicate]
  rfl

theorem parseTop_single (a : ℚ) :
    parseTop 32 [.num a] = .ok (.const (.num a)) := rfl

theorem evaluate_numeral (M : MathLib) (u : Bool) (xs : List Char) (hne : xs ≠ [])
    (hxs : ∀ c ∈ xs, c.isDigit = true)
    (hlz : xs.head? = some '0' → ∀ c ∈ xs, c = '0') :
    evaluate M u (String.mk xs) = .ok (.num ((digitsVal xs : ℕ) : ℚ)) := by
  have hpre : preprocess (String.mk xs) u = String.mk xs := by
    unfold preprocess
    dsimp only
    rw [show (String.mk xs).toList = xs from rfl]
    rw [repPi_id (fun c hc => digit_ne (hxs c hc) rfl)]
    rw [repPow_id (fun c hc => digit_ne (hxs c hc) rfl)]
    rw [repSqrt_id (fun c hc => digit_ne (hxs c hc) rfl)]
    have hsubA : subA xs = xs := by
      rw [subA_spec]
      exact specInsA_id (fun c hc =>
        ⟨digit_ne (hxs c hc) rfl, digit_ne (hxs c hc) rfl, digit_ne (hxs c hc) rfl⟩)
    have hsubB : subB xs = xs := by
      rw [subB_spec]
      exact specInsB_id (fun c hc => digit_ne (hxs c hc) rfl)
    rw [hsubA, hsubB]
    have htrig : ∀ c ∈ xs, c ≠ 's' ∧ c ≠ 'c' ∧ c ≠ 't' := fun c hc =>
      ⟨digit_ne (hxs c hc) rfl, digit_ne (hxs c hc) rfl, digit_ne (hxs c hc) rfl⟩
    have hbal : autoBalance xs = xs :=
      autoBalance_id (fun hc => by
        have := hxs '(' hc
        simp at this)
    cases u
    · simp only [if_false, Bool.false_eq_true, hbal]
    · simp only [if_true, trigSub, trigGo_id htrig, hbal]
  unfold evaluate
  dsimp only
  rw [show (String.mk xs).toList = xs from rfl]
  rw [pyStrip_id (fun c hc => digit_not_space (hxs c hc))]
  rw [show xs.isEmpty = false from by
    cases xs with
    | nil => exact absurd rfl hne
    | cons a b => rfl]
  simp only [Bool.false_eq_true, if_false]
  rw [hpre]
  rw [show (String.mk xs).toList = xs from rfl]
  obtain ⟨g, hg⟩ : ∃ g, xs.length + 1 = g + 1 := ⟨xs.length, rfl⟩
  rw [show tokenize xs = tokGo (xs.length + 1) xs from rfl, hg,
    tokGo_num_end g xs hne hxs hlz]
  dsimp only [List.length_cons, List.length_nil]
  rw [show (16 * (0 + 1 + 1) : ℕ) = 32 from by norm_num]
  rw [parseTop_single]
  rfl

/-- The round trip on integral results below `10 ^ 8`: formatting and
re-evaluating such a result returns it unchanged. -/
theorem evaluate_format8g_nat (M : MathLib) (u : Bool) (n : ℕ) (h0 : 0 < n)
    (h8 : n < 10 ^ 8) :
    evaluate M u (format8g ((n : ℕ) : ℚ)) = .ok (.num ((n : ℕ) : ℚ)) := by
  obtain ⟨hd, hv, hne, hhd, _⟩ := natDigits_props n h0
  rw [format8g_nat h0 h8]
  rw [evaluate_numeral M u (natDigits n) hne hd (fun hh => absurd rfl (hhd '0' hh))]
  rw [hv]

/-- C5 (amended): re-evaluating the formatted output returns the value the
formatted string denotes.  That value equals the original result exactly
when the result is representable in at most 8 significant digits (5, 2.5,
12345678 round-trip); otherwise it is the rounded value (1/3 comes back as
0.33333333), and results formatted in scientific notation are further
mangled by the implicit-multiplication rewrite (10^20 formats as `1e+20`,
which re-evaluates to `1*e+20`, i.e. the constant e plus 20). -/
theorem C5_roundtrip_amended :
    (∀ (M : MathLib) (u : Bool) (n : ℕ), 0 < n → n < 10 ^ 8 →
      evaluate M u (format8g ((n : ℕ) : ℚ)) = .ok (.num ((n : ℕ) : ℚ))) ∧
    (∀ (M : MathLib) (u : Bool),
      evaluate M u (format8g (5 / 2)) = .ok (.num (5 / 2)) ∧
      evaluate M u (format8g (1 / 3)) = .ok (.num (33333333 / 100000000)) ∧
      evaluate M u (format8g (zpowQ 10 20)) = .ok (.num (1 * M.eV + 20))) := by
  refine ⟨evaluate_format8g_nat, fun M u => ?_⟩
  cases u <;> exact ⟨rfl, rfl, rfl⟩

/-- Witness for C5 at the integral result 7: formatting gives `"7"` and
re-evaluating returns 7. -/
theorem C5_roundtrip_amended_witness :
    (0 < 7) ∧ (7 < 10 ^ 8) ∧
    evaluate mathLib0 false (format8g ((7 : ℕ) : ℚ)) = .ok (.num ((7 : ℕ) : ℚ)) :=
  ⟨by decide, by decide, C5_roundtrip_amended.1 mathLib0 false 7 (by decide) (by decide)⟩
